import Mathlib

/-!
Verification of the session and reliability layer of a WebSocket client for
the Buttplug v4 wire protocol.  The development shallowly embeds the
TypeScript source: the message-id allocator, the pending-request table of
the message router, device-list reconciliation, the structural feature-set
comparison, the reconnect backoff state machine, the ping supervisor, and
the transport teardown paths.  Stateful code becomes explicit state passing
on concrete state structures; the single-threaded event-loop semantics of
the source lets each handler be modelled as a pure state transformer that
additionally reports the externally visible actions it performs.
-/

namespace Buttplug

/-- Maximum allowed message id value (32-bit unsigned integer ceiling),
from the protocol constants file. -/
def MAX_MESSAGE_ID : Nat := 0xffffffff

/-- Default timeout in milliseconds for awaiting a server response to a
request, from the protocol constants file. -/
def DEFAULT_REQUEST_TIMEOUT : Nat := 10000

/-- One step of the message-id counter, from MessageRouter.nextId:
the counter field is replaced by counter % MAX_MESSAGE_ID + 1 and the new
value is returned. -/
def nextIdStep (messageId : Nat) : Nat := messageId % MAX_MESSAGE_ID + 1

/-- Value of the router's message-id counter after k calls to nextId,
starting from the initial counter value 0 (the constructor initialises the
field to 0, and resetId restores it to 0).  The value after call k is the
id returned by call k. -/
def idSeq : Nat → Nat
  | 0 => 0
  | k + 1 => nextIdStep (idSeq k)

/-!
Model of the JavaScript Map objects used by the source (the router's
pending table and the client's device table): an association list in
insertion order.  Map.set replaces an existing entry in place and appends
a fresh key at the end; Map.delete removes the entry of the key; iteration,
keys and values follow insertion order.  The source never stores two
entries under one key, so the functions below are used under a no-duplicate
invariant on the key list.
-/

/-- Lookup of a key, as Map.get: the value stored under the key, if any. -/
def mapGet? {κ T : Type} [DecidableEq κ] : List (κ × T) → κ → Option T
  | [], _ => none
  | (k', v) :: rest, k => if k' = k then some v else mapGet? rest k

/-- Insertion-order update, as Map.set: replace in place when the key is
present, append at the end otherwise. -/
def mapSet {κ T : Type} [DecidableEq κ] : List (κ × T) → κ → T → List (κ × T)
  | [], k, v => [(k, v)]
  | (k', v') :: rest, k, v =>
      if k' = k then (k, v) :: rest else (k', v') :: mapSet rest k v

/-- Removal, as Map.delete: drop the entry stored under the key. -/
def mapDelete {κ T : Type} [DecidableEq κ] : List (κ × T) → κ → List (κ × T)
  | [], _ => []
  | (k', v') :: rest, k => if k' = k then rest else (k', v') :: mapDelete rest k

/-- Key list in insertion order, as Map.keys. -/
def mapKeys {κ T : Type} (m : List (κ × T)) : List κ := m.map Prod.fst

/-- Value list in insertion order, as Map.values / Array.from(m.values()). -/
def mapValues {κ T : Type} (m : List (κ × T)) : List T := m.map Prod.snd

/-- Output actuator types of the Buttplug v4 protocol, from the schema. -/
inductive OutputType
  | Vibrate | Rotate | RotateWithDirection | Oscillate | Constrict
  | Spray | Temperature | Led | Position | HwPositionWithDuration
  deriving DecidableEq, Repr

/-- Input sensor types of the Buttplug v4 protocol, from the schema. -/
inductive InputType
  | Battery | RSSI | Pressure | Button | Position
  deriving DecidableEq, Repr

/-- Normalized output feature descriptor, from the schema: capability type
tag, feature index, description, value range, optional duration range. -/
structure OutputFeature where
  type : OutputType
  index : Int
  description : String
  range : Int × Int
  durationRange : Option (Int × Int)
  deriving DecidableEq, Repr

/-- Normalized input feature descriptor, from the schema: capability type
tag, feature index, description, value range, and command capabilities. -/
structure InputFeature where
  type : InputType
  index : Int
  description : String
  range : Int × Int
  canRead : Bool
  canSubscribe : Bool
  deriving DecidableEq, Repr

/-- Parsed capability set of a device: output and input feature lists. -/
structure DeviceFeatures where
  outputs : List OutputFeature
  inputs : List InputFeature
  deriving DecidableEq, Repr

/-- Stable insertion into a list sorted by the key: the element is placed
before the first element whose key is not smaller.  Combined with
sortByKey this models the stable JavaScript Array.sort with the comparator
x.index - y.index used by the feature comparison helpers. -/
def insertByKey {α : Type} (key : α → Int) (x : α) : List α → List α
  | [] => [x]
  | y :: ys => if key x ≤ key y then x :: y :: ys else y :: insertByKey key x ys

/-- Stable sort by an integer key, modelling the JavaScript stable
Array.sort with comparator x.index - y.index. -/
def sortByKey {α : Type} (key : α → Int) : List α → List α
  | [] => []
  | x :: xs => insertByKey key x (sortByKey key xs)

/-- Fieldwise comparison of a pair of output features, exactly the
per-element check inside outputFeaturesEqual; durationRange is compared
componentwise through optional chaining, so two absent duration ranges
compare equal. -/
def outputFeatureFieldsEqual (ao bo : OutputFeature) : Bool :=
  ao.type == bo.type && ao.index == bo.index && ao.description == bo.description &&
  ao.range.1 == bo.range.1 && ao.range.2 == bo.range.2 &&
  ao.durationRange.map Prod.fst == bo.durationRange.map Prod.fst &&
  ao.durationRange.map Prod.snd == bo.durationRange.map Prod.snd

/-- Fieldwise comparison of a pair of input features, exactly the
per-element check inside inputFeaturesEqual. -/
def inputFeatureFieldsEqual (ai bi : InputFeature) : Bool :=
  ai.type == bi.type && ai.index == bi.index && ai.description == bi.description &&
  ai.canRead == bi.canRead && ai.canSubscribe == bi.canSubscribe &&
  ai.range.1 == bi.range.1 && ai.range.2 == bi.range.2

/-- Loop of outputFeaturesEqual over the sorted arrays: each element of the
first list is compared with the same-position element of the second, and a
missing second element fails the comparison. -/
def outputPairsCheck : List OutputFeature → List OutputFeature → Bool
  | [], _ => true
  | _ :: _, [] => false
  | a :: as, b :: bs => outputFeatureFieldsEqual a b && outputPairsCheck as bs

/-- Loop of inputFeaturesEqual over the sorted arrays. -/
def inputPairsCheck : List InputFeature → List InputFeature → Bool
  | [], _ => true
  | _ :: _, [] => false
  | a :: as, b :: bs => inputFeatureFieldsEqual a b && inputPairsCheck as bs

/-- Comparison of output feature arrays, from outputFeaturesEqual: both
sides are stably sorted by feature index and then compared pairwise. -/
def outputFeaturesEqual (a b : List OutputFeature) : Bool :=
  outputPairsCheck (sortByKey OutputFeature.index a) (sortByKey OutputFeature.index b)

/-- Comparison of input feature arrays, from inputFeaturesEqual. -/
def inputFeaturesEqual (a b : List InputFeature) : Bool :=
  inputPairsCheck (sortByKey InputFeature.index a) (sortByKey InputFeature.index b)

/-- Structural capability-set comparison, from featuresEqual: fail fast on
differing lengths, otherwise compare the sorted output and input arrays. -/
def featuresEqual (a b : DeviceFeatures) : Bool :=
  if a.outputs.length != b.outputs.length || a.inputs.length != b.inputs.length then
    false
  else
    outputFeaturesEqual a.outputs b.outputs && inputFeaturesEqual a.inputs b.inputs

/-- Concrete device record shape required by reconciliation (the
ReconcilableDevice interface): server-assigned index, name, and parsed
capability set. -/
structure DeviceRecord where
  index : Int
  name : String
  features : DeviceFeatures
  deriving DecidableEq, Repr

/-- Sample output feature used to instantiate theorems: Vibrate capability
at feature index 0. -/
def vibrateAt0 : OutputFeature := ⟨OutputType.Vibrate, 0, "f", (0, 10), none⟩

/-- Sample output feature used to instantiate theorems: Oscillate
capability at feature index 0. -/
def oscillateAt0 : OutputFeature := ⟨OutputType.Oscillate, 0, "f", (0, 20), none⟩

/-- Sample device record A. -/
def deviceA : DeviceRecord := ⟨0, "A", ⟨[vibrateAt0], []⟩⟩

/-- Sample device record B. -/
def deviceB : DeviceRecord := ⟨1, "B", ⟨[oscillateAt0], []⟩⟩

/-- Sample output feature with the distinct feature index 1. -/
def rotateAt1 : OutputFeature := ⟨OutputType.Rotate, 1, "g", (0, 5), none⟩

/-- Sample device with two output features at distinct indices. -/
def deviceC : DeviceRecord := ⟨2, "C", ⟨[vibrateAt0, rotateAt1], []⟩⟩

/-- The same device as deviceC with its output features reordered. -/
def deviceCSwap : DeviceRecord := ⟨2, "C", ⟨[rotateAt1, vibrateAt0], []⟩⟩

/-- Capability set holding two different output capabilities that share
feature index 0, in one order. -/
def featuresDupA : DeviceFeatures := ⟨[vibrateAt0, oscillateAt0], []⟩

/-- The same capability multiset as featuresDupA, reordered. -/
def featuresDupB : DeviceFeatures := ⟨[oscillateAt0, vibrateAt0], []⟩

/-- Device record carrying featuresDupA. -/
def deviceDupA : DeviceRecord := ⟨0, "dup", featuresDupA⟩

/-- Device record carrying featuresDupB. -/
def deviceDupB : DeviceRecord := ⟨0, "dup", featuresDupB⟩

/-- Events reported through the reconciliation callbacks, in invocation
order: onRemoved, onAdded, onUpdated (new device first, as in the source),
and the final onList snapshot. -/
inductive ReconcileEvent (T : Type)
  | removed (device : T)
  | added (device : T)
  | updated (newDevice oldDevice : T)
  | list (devices : List T)
  deriving DecidableEq, Repr

/-- Discriminator for the final snapshot event. -/
def ReconcileEvent.isList {T : Type} : ReconcileEvent T → Bool
  | .list _ => true
  | _ => false

section Reconcile

variable {Raw T : Type} (rawIndex : Raw → Int) (featuresOf : T → DeviceFeatures)
variable (createDevice : Raw → T)

/-- First loop of reconcileDevices, iterating the snapshot of current keys:
an index absent from the incoming index set is deleted from the table and
reported removed. -/
def removePhase (incomingIndices : List Int) :
    List (Int × T) → List Int → List (Int × T) × List (ReconcileEvent T)
  | m, [] => (m, [])
  | m, i :: rest =>
      if i ∈ incomingIndices then removePhase incomingIndices m rest
      else
        match mapGet? m i with
        | some d =>
            let r := removePhase incomingIndices (mapDelete m i) rest
            (r.1, ReconcileEvent.removed d :: r.2)
        | none => removePhase incomingIndices m rest

/-- Second loop of reconcileDevices, iterating the incoming raw list: an
index in the snapshot of current keys is replaced and reported updated
when the capability sets differ structurally, a fresh index is inserted
and reported added. -/
def upsertPhase (currentIndices : List Int) :
    List (Int × T) → List Raw → List (Int × T) × List (ReconcileEvent T)
  | m, [] => (m, [])
  | m, raw :: rest =>
      if rawIndex raw ∈ currentIndices then
        match mapGet? m (rawIndex raw) with
        | some existing =>
            let newDevice := createDevice raw
            if featuresEqual (featuresOf existing) (featuresOf newDevice) then
              upsertPhase currentIndices m rest
            else
              let r := upsertPhase currentIndices
                (mapSet m (rawIndex raw) newDevice) rest
              (r.1, ReconcileEvent.updated newDevice existing :: r.2)
        | none => upsertPhase currentIndices m rest
      else
        let d := createDevice raw
        let r := upsertPhase currentIndices (mapSet m (rawIndex raw) d) rest
        (r.1, ReconcileEvent.added d :: r.2)

/-- The reconcileDevices diff: the remove phase over the snapshot of
current keys, the upsert phase over the incoming raw list against the
snapshot of current keys, then the single final onList snapshot of the
resulting table. -/
def reconcileDevices (current : List (Int × T)) (incomingRaw : List Raw) :
    List (Int × T) × List (ReconcileEvent T) :=
  let incomingIndices := incomingRaw.map rawIndex
  let currentIndices := mapKeys current
  let r1 := removePhase incomingIndices current currentIndices
  let r2 := upsertPhase rawIndex featuresOf createDevice currentIndices r1.1 incomingRaw
  (r2.1, r1.2 ++ r2.2 ++ [ReconcileEvent.list (mapValues r2.1)])

end Reconcile

/-!
Model of the message router bookkeeping, the ping supervisor and the
client wiring between them.
-/

/-- Raw device descriptor payload carried by DeviceList messages; only the
identifying fields forwarded by the router are modelled. -/
structure RawDeviceM where
  DeviceIndex : Int
  DeviceName : String
  deriving DecidableEq, Repr

/-- Parsed server messages (the ServerMessage union of the schema): each
variant carries the correlation id of its inner object. -/
inductive ServerMessage
  | serverInfo (id : Nat) (serverName : Option String) (major minor maxPingTime : Int)
  | ok (id : Nat)
  | errorMsg (id : Nat) (errorCode : Nat) (errorMessage : String)
  | deviceList (id : Nat) (devices : List RawDeviceM)
  | scanningFinished (id : Nat)
  | inputReading (id : Nat) (deviceIndex featureIndex : Int)
      (inputType : InputType) (value : Int)
  deriving DecidableEq, Repr

/-- Correlation id extraction, from the parser's extractId. -/
def extractId : ServerMessage → Nat
  | .serverInfo i _ _ _ _ => i
  | .ok i => i
  | .errorMsg i _ _ => i
  | .deviceList i _ => i
  | .scanningFinished i => i
  | .inputReading i _ _ _ _ => i

/-- Type guard isOk of the parser. -/
def isOk : ServerMessage → Bool
  | .ok _ => true
  | _ => false

/-- Type guard isServerInfo of the parser. -/
def isServerInfo : ServerMessage → Bool
  | .serverInfo _ _ _ _ _ => true
  | _ => false

/-- Type guard isError of the parser. -/
def isError : ServerMessage → Bool
  | .errorMsg _ _ _ => true
  | _ => false

/-- Type guard isDeviceList of the parser. -/
def isDeviceList : ServerMessage → Bool
  | .deviceList _ _ => true
  | _ => false

/-- Type guard isScanningFinished of the parser. -/
def isScanningFinished : ServerMessage → Bool
  | .scanningFinished _ => true
  | _ => false

/-- Type guard isInputReading of the parser. -/
def isInputReading : ServerMessage → Bool
  | .inputReading _ _ _ _ _ => true
  | _ => false

/-- Typed failures of the error taxonomy: connection, handshake, protocol
(server error code and message), device, timeout (operation name and
configured duration), and a generic error. -/
inductive BError
  | connection (message : String)
  | handshake (message : String)
  | protocol (code : Nat) (message : String)
  | device (deviceIndex : Int) (message : String)
  | timeout (operation : String) (timeoutMs : Nat)
  | generic (message : String)
  deriving DecidableEq, Repr

/-- Check for the TimeoutError class (err instanceof TimeoutError). -/
def BError.isTimeout : BError → Bool
  | .timeout _ _ => true
  | _ => false

/-- Settlement of a pending request promise. -/
inductive Settlement
  | resolved (msg : ServerMessage)
  | rejected (e : BError)
  deriving DecidableEq, Repr

/-- A pending-request table entry (the PendingRequest record): the model
keeps the identity of the armed timeout handle, nullable as in the
source; the resolver and rejecter are represented by the settlements and
actions the router reports. -/
structure PendingEntry where
  timerId : Option Nat
  deriving DecidableEq, Repr

/-- State of the MessageRouter bookkeeping: the pending table keyed by
message id, the list of armed timeout handles, a fresh-handle counter,
and the configured request timeout duration. -/
structure RouterState where
  pending : List (Nat × PendingEntry)
  timers : List Nat
  nextTimer : Nat
  timeout : Nat
  deriving DecidableEq, Repr

/-- Registration of one message of a send batch: arm a fresh timeout and
store the pending entry under the message id (the promise-construction
loop of MessageRouter.send). -/
def register1 (st : RouterState) (id : Nat) : RouterState :=
  { st with
    pending := mapSet st.pending id ⟨some st.nextTimer⟩
    timers := st.timers ++ [st.nextTimer]
    nextTimer := st.nextTimer + 1 }

/-- Registration loop of MessageRouter.send over the batch ids. -/
def registerBatch (st : RouterState) : List Nat → RouterState
  | [] => st
  | id :: ids => registerBatch (register1 st id) ids

/-- Rollback of one id in the catch block of MessageRouter.send: clear the
entry's armed timeout, if any, then delete the entry. -/
def rollback1 (st : RouterState) (id : Nat) : RouterState :=
  { st with
    pending := mapDelete st.pending id
    timers :=
      match mapGet? st.pending id with
      | some p =>
          match p.timerId with
          | some t => st.timers.erase t
          | none => st.timers
      | none => st.timers }

/-- Rollback loop of the catch block over the batch ids. -/
def rollbackBatch (st : RouterState) : List Nat → RouterState
  | [] => st
  | id :: ids => rollbackBatch (rollback1 st id) ids

/-- MessageRouter.send on the bookkeeping state: register every message of
the batch, then, when the underlying transport send throws synchronously,
roll every newly registered entry back before the failure propagates. -/
def sendModel (st : RouterState) (ids : List Nat) (sendThrows : Bool) : RouterState :=
  let st1 := registerBatch st ids
  if sendThrows then rollbackBatch st1 ids else st1

/-- The timeout callback armed for one request by MessageRouter.send: the
pending entry is deleted and the promise rejected with a timeout fault
carrying the configured duration; the fired timer is disarmed. -/
def requestTimeoutFire (st : RouterState) (id : Nat) : RouterState × Settlement :=
  ({ st with
      pending := mapDelete st.pending id
      timers :=
        match mapGet? st.pending id with
        | some p =>
            match p.timerId with
            | some t => st.timers.erase t
            | none => st.timers
        | none => st.timers },
   Settlement.rejected
    (BError.timeout ("Request (ID " ++ toString id ++ ")") st.timeout))

/-- Externally visible actions performed by the router while processing an
inbound message, in execution order. -/
inductive RouterAction
  | clearTimer (timerId : Nat)
  | deleteEntry (id : Nat)
  | resolvePending (id : Nat) (msg : ServerMessage)
  | rejectPending (id : Nat) (e : BError)
  | eventDispatch (msg : ServerMessage)
  | warnUnexpected (id : Nat)
  deriving DecidableEq, Repr

/-- Discriminator for the actions that settle a pending request. -/
def RouterAction.isSettle : RouterAction → Bool
  | .resolvePending _ _ => true
  | .rejectPending _ _ => true
  | _ => false

/-- MessageRouter processing of one parsed inbound message: id 0 and ids
matching no pending request dispatch the message as an unsolicited event;
a matching pending request has its timer cleared and its table entry
removed before it is settled; Ok, ServerInfo and InputReading responses
resolve, Error responses reject with a protocol fault carrying the server
error code, DeviceList responses resolve, and any other message type is
resolved as-is after a warning. -/
def processMessage (st : RouterState) (msg : ServerMessage) :
    RouterState × List RouterAction :=
  let id := extractId msg
  if id = 0 then (st, [RouterAction.eventDispatch msg])
  else
    match mapGet? st.pending id with
    | none => (st, [RouterAction.eventDispatch msg])
    | some p =>
        let st1 := { st with
          pending := mapDelete st.pending id
          timers :=
            match p.timerId with
            | some t => st.timers.erase t
            | none => st.timers }
        let pre := (match p.timerId with
            | some t => [RouterAction.clearTimer t]
            | none => []) ++ [RouterAction.deleteEntry id]
        if isOk msg || isServerInfo msg || isInputReading msg then
          (st1, pre ++ [RouterAction.resolvePending id msg])
        else
          match msg with
          | .errorMsg _ code emsg =>
              (st1, pre ++ [RouterAction.rejectPending id (BError.protocol code emsg)])
          | _ =>
              if isDeviceList msg then
                (st1, pre ++ [RouterAction.resolvePending id msg])
              else
                (st1, pre ++ [RouterAction.warnUnexpected id,
                              RouterAction.resolvePending id msg])

/-- MessageRouter.cancelAll: snapshot the pending entries, clear the
table, then clear each armed timer and reject each entry with the given
error, reported in table order. -/
def cancelAll (st : RouterState) (e : BError) : RouterState × List (Nat × Settlement) :=
  ({ st with
      pending := []
      timers := st.timers.filter
        (fun t => !(st.pending.any (fun q => q.2.timerId == some t))) },
   st.pending.map (fun q => (q.1, Settlement.rejected e)))

/-- Default ping timeout when the server max ping time is unknown. -/
def DEFAULT_PING_TIMEOUT_MS : Nat := 5000

/-- Effective duration of the ping timeout race in PingManager.doPing: a
falsy (zero) stored max ping time falls back to the default. -/
def pingEffectiveTimeout (maxPingTime : Nat) : Nat :=
  if maxPingTime = 0 then DEFAULT_PING_TIMEOUT_MS else maxPingTime

/-- The client wires the ping manager's cancel-ping hook to
MessageRouter.cancelAll, so cancelling a ping cancels every pending
request of the router (ButtplugClient constructor). -/
def clientCancelPing (st : RouterState) (e : BError) :
    RouterState × List (Nat × Settlement) :=
  cancelAll st e

/-- Firing of the ping timeout timer armed by PingManager.doPing: the
cancel-ping hook is invoked with a timeout fault carrying the effective
ping duration. -/
def pingTimeoutFire (st : RouterState) (maxPingTime : Nat) :
    RouterState × List (Nat × Settlement) :=
  clientCancelPing st (BError.timeout "Ping" (pingEffectiveTimeout maxPingTime))

/-- Externally visible effects of one completed PingManager.doPing call. -/
structure PingEffects where
  errorReported : Option BError
  disconnectCalled : Bool
  warnedNonTimeout : Bool
  deriving DecidableEq, Repr

/-- Outcome of awaiting the sendPing hook. -/
inductive PingOutcome
  | pong
  | failed (e : BError)
  deriving DecidableEq, Repr

/-- The catch branch of PingManager.doPing: every failure is reported via
the error callback; only a timeout failure while still connected triggers
the caller-supplied disconnect; a non-timeout failure is logged and does
not disconnect. -/
def doPingEffects (outcome : PingOutcome) (connected : Bool) : PingEffects :=
  match outcome with
  | .pong => ⟨none, false, false⟩
  | .failed e => ⟨some e, e.isTimeout && connected, !e.isTimeout⟩

/-- Example router state used to instantiate theorems: one pending request
under id 5 with armed timer 0 and the default configured timeout. -/
def routerStateEx : RouterState := ⟨[(5, ⟨some 0⟩)], [0], 1, DEFAULT_REQUEST_TIMEOUT⟩

/-- Example router state holding a pending ping (id 1) and one other
pending request (id 2). -/
def routerStatePing : RouterState := ⟨[(1, ⟨some 0⟩), (2, ⟨some 1⟩)], [0, 1], 2, 10000⟩

/-!
Model of the reconnect handler state machine.
-/

/-- Maximum safe exponent in the backoff calculation. -/
def MAX_BACKOFF_EXPONENT : Nat := 30

/-- Configuration of the reconnect handler. -/
structure ReconnectConfig where
  reconnectDelay : Nat
  maxReconnectDelay : Nat
  maxReconnectAttempts : Nat
  deriving DecidableEq, Repr

/-- Default reconnect configuration (ReconnectDefaults). -/
def reconnectDefaults : ReconnectConfig := ⟨1000, 30000, 10⟩

/-- Mutable fields of the reconnect handler: the attempt counter, the
armed backoff timer (carrying its delay), and the reconnecting and
cancelled flags. -/
structure ReconnectState where
  reconnectAttempt : Nat
  reconnectTimer : Option Nat
  reconnecting : Bool
  cancelled : Bool
  deriving DecidableEq, Repr

/-- Externally visible events of the reconnect handler: the onReconnecting
callback with the attempt number, the onReconnected callback, the single
onFailed callback, and each call into transport connect. -/
inductive ReconnectEvent
  | reconnectingCb (attempt : Nat)
  | reconnectedCb
  | failedCb (reason : String)
  | connectAttempt
  deriving DecidableEq, Repr

/-- Discriminator for the terminal failure callback. -/
def ReconnectEvent.isFailedCb : ReconnectEvent → Bool
  | .failedCb _ => true
  | _ => false

/-- Discriminator for transport connect calls. -/
def ReconnectEvent.isConnectAttempt : ReconnectEvent → Bool
  | .connectAttempt => true
  | _ => false

/-- The initial handler state, as initialised by the class fields. -/
def reconnectIdle : ReconnectState := ⟨0, none, false, false⟩

/-- Backoff delay armed for the given attempt number: the exponent is
capped at MAX_BACKOFF_EXPONENT and the delay at the configured maximum. -/
def backoffDelay (cfg : ReconnectConfig) (attempt : Nat) : Nat :=
  min (cfg.reconnectDelay * 2 ^ (min (attempt - 1) MAX_BACKOFF_EXPONENT))
    cfg.maxReconnectDelay

/-- ReconnectHandler attemptReconnect: bail out when cancelled or idle;
count the attempt; past the configured maximum report the single terminal
failure and leave the reconnecting state; otherwise report the attempt
number and arm the backoff timer for it. -/
def attemptReconnect (cfg : ReconnectConfig) (st : ReconnectState) :
    ReconnectState × List ReconnectEvent :=
  if st.cancelled || !st.reconnecting then (st, [])
  else
    let a := st.reconnectAttempt + 1
    if a > cfg.maxReconnectAttempts then
      ({ st with reconnectAttempt := a, reconnecting := false },
       [ReconnectEvent.failedCb ("Failed to reconnect after "
          ++ toString cfg.maxReconnectAttempts ++ " attempts")])
    else
      ({ st with reconnectAttempt := a, reconnectTimer := some (backoffDelay cfg a) },
       [ReconnectEvent.reconnectingCb a])

/-- Firing of the armed backoff timer: bail out when cancelled or idle;
otherwise call transport connect, and on failure recurse into the next
attempt without resetting the counter, on success reset the counter and
report the reconnection.  Within one callback run no concurrent
cancellation can interleave, so the post-connect cancelled checks of the
source coincide with the initial guard. -/
def reconnectTimerFire (cfg : ReconnectConfig) (st : ReconnectState)
    (connectOk : Bool) : ReconnectState × List ReconnectEvent :=
  let st0 := { st with reconnectTimer := none }
  if st0.cancelled || !st0.reconnecting then (st0, [])
  else if connectOk then
    ({ st0 with reconnecting := false, reconnectAttempt := 0 },
     [ReconnectEvent.connectAttempt, ReconnectEvent.reconnectedCb])
  else
    let r := attemptReconnect cfg st0
    (r.1, ReconnectEvent.connectAttempt :: r.2)

/-- ReconnectHandler.start: a no-op while already reconnecting, otherwise
raise the reconnecting flag, clear the cancelled flag, and run the first
attempt. -/
def reconnectStart (cfg : ReconnectConfig) (st : ReconnectState) :
    ReconnectState × List ReconnectEvent :=
  if st.reconnecting then (st, [])
  else attemptReconnect cfg { st with reconnecting := true, cancelled := false }

/-- Trace of the reconnect handler after start from idle followed by n
backoff timer firings whose connect attempts all fail, accumulating the
reported events. -/
def failTrace (cfg : ReconnectConfig) : Nat → ReconnectState × List ReconnectEvent
  | 0 => reconnectStart cfg reconnectIdle
  | n + 1 =>
      let r := failTrace cfg n
      let r2 := reconnectTimerFire cfg r.1 false
      (r2.1, r.2 ++ r2.2)

/-!
Model of the WebSocket transport together with the native socket.
-/

/-- Ready states of the native WebSocket. -/
inductive WsReadyState
  | connecting | open | closing | closed
  deriving DecidableEq, Repr

/-- Native WebSocket object state: its ready state and whether close() has
been requested on it. -/
structure WsModel where
  readyState : WsReadyState
  closeRequested : Bool
  deriving DecidableEq, Repr

/-- Transport lifecycle states. -/
inductive TState
  | disconnected | connecting | connected
  deriving DecidableEq, Repr

/-- WebSocketTransport together with the native socket it created: socket
is the native object (none before any connect), wsRef tells whether the
private ws field still references it, connectInFlight models a non-null
connectPromise, and the two listener flags model the connect-time
listeners and the attached steady-state handlers. -/
structure TransportModel where
  socket : Option WsModel
  wsRef : Bool
  state : TState
  connectInFlight : Bool
  disconnectRequested : Bool
  connectListeners : Bool
  mainHandlers : Bool
  deriving DecidableEq, Repr

/-- A freshly constructed transport. -/
def freshTransport : TransportModel :=
  ⟨none, false, TState.disconnected, false, false, false, false⟩

/-- The private cleanup method: remove the steady-state handlers, null the
ws field, reset the state to disconnected. -/
def cleanupT (t : TransportModel) : TransportModel :=
  { t with wsRef := false, state := TState.disconnected, mainHandlers := false }

/-- WebSocketTransport.connect: return early when connected or when a
connect is already in flight; otherwise create the socket, mark the state
connecting, clear the disconnect-requested flag and attach the
connect-time listeners. -/
def connectCall (t : TransportModel) : TransportModel :=
  if t.state = TState.connected then t
  else if t.connectInFlight then t
  else
    { t with
      state := TState.connecting
      disconnectRequested := false
      socket := some ⟨WsReadyState.connecting, false⟩
      wsRef := true
      connectInFlight := true
      connectListeners := true }

/-- WebSocketTransport.disconnect: a no-op when disconnected; flags an
in-flight connect for teardown on open; cleans up directly when no live
socket remains; when the socket is already closing it waits for the close
event; otherwise it requests the socket close and waits for the close
event. -/
def disconnectCall (t : TransportModel) : TransportModel :=
  if t.state = TState.disconnected then t
  else
    let t1 := if t.connectInFlight then { t with disconnectRequested := true } else t
    match t1.socket with
    | none => cleanupT t1
    | some ws =>
        if !t1.wsRef || ws.readyState = WsReadyState.closed then cleanupT t1
        else if ws.readyState = WsReadyState.closing then t1
        else
          { t1 with socket := some { ws with
              closeRequested := true
              readyState :=
                if ws.readyState = WsReadyState.open then WsReadyState.closing
                else ws.readyState } }

/-- The socket open event: the native socket completes its handshake (a
socket whose close was requested while connecting proceeds directly into
the closing handshake); the transport's connect-time open listener then
either tears the attempt down via cleanup when disconnect was requested
while connecting, or marks the transport connected and attaches the
steady-state handlers. -/
def openEvent (t : TransportModel) : TransportModel :=
  match t.socket with
  | none => t
  | some ws =>
      let ws1 : WsModel := { ws with readyState :=
        if ws.closeRequested then WsReadyState.closing else WsReadyState.open }
      let t1 := { t with socket := some ws1 }
      if t1.connectListeners then
        let t2 := { t1 with connectListeners := false, connectInFlight := false }
        if t2.disconnectRequested then
          cleanupT { t2 with disconnectRequested := false }
        else
          { t2 with state := TState.connected, mainHandlers := true }
      else t1

/-- The socket close event: the native socket reaches the closed state;
whichever transport listeners are attached (the connect-time close
listener, the steady-state close handler, or the close waiter registered
by disconnect) leave the transport disconnected with the ws field
cleared. -/
def closeEvent (t : TransportModel) : TransportModel :=
  match t.socket with
  | none => t
  | some ws =>
      { t with
        socket := some { ws with readyState := WsReadyState.closed }
        wsRef := false
        state := TState.disconnected
        connectInFlight := false
        connectListeners := false
        mainHandlers := false }

end Buttplug

namespace Buttplug

/-- Closed form of the id sequence: the k-th call (counting from 1, so the
argument is k = index + 1) returns index % MAX_MESSAGE_ID + 1. -/
theorem idSeq_succ_eq (k : Nat) : idSeq (k + 1) = k % MAX_MESSAGE_ID + 1 := by
  induction k with
  | zero => rfl
  | succ n ih =>
      show nextIdStep (idSeq (n + 1)) = (n + 1) % MAX_MESSAGE_ID + 1
      rw [ih]
      unfold nextIdStep
      congr 1
      have h1 : 1 % MAX_MESSAGE_ID = 1 := by decide
      conv_rhs => rw [Nat.add_mod, h1]

/-- C1: for every sequence of calls to the router's nextId, the returned
correlation ids follow the closed form index % MAX_MESSAGE_ID + 1, are
never 0, increase by one while below the maximum, wrap from
MAX_MESSAGE_ID back to 1, and two calls strictly less than a full wrap
period apart never return the same id. -/
theorem nextId_spec (k j : Nat) (hlt : k < j) (hperiod : j - k < MAX_MESSAGE_ID) :
    idSeq (k + 1) = k % MAX_MESSAGE_ID + 1 ∧
    idSeq (k + 1) ≠ 0 ∧
    (idSeq (k + 1) < MAX_MESSAGE_ID → idSeq (k + 2) = idSeq (k + 1) + 1) ∧
    (idSeq (k + 1) = MAX_MESSAGE_ID → idSeq (k + 2) = 1) ∧
    idSeq (j + 1) ≠ idSeq (k + 1) := by
  have e1 := idSeq_succ_eq k
  have e2 := idSeq_succ_eq (k + 1)
  have e3 := idSeq_succ_eq j
  have hk2 : k + 1 + 1 = k + 2 := rfl
  rw [hk2] at e2
  simp only [MAX_MESSAGE_ID] at e1 e2 e3 hperiod ⊢
  rw [e1, e2, e3]
  refine ⟨rfl, ?_, ?_, ?_, ?_⟩ <;> omega

/-- Witness for nextId_spec at k = 0, j = 1: the hypotheses hold and the
first two ids are 1 and 2. -/
theorem nextId_spec_witness :
    (0 : Nat) < 1 ∧ (1 : Nat) - 0 < MAX_MESSAGE_ID ∧
    (idSeq (0 + 1) = 0 % MAX_MESSAGE_ID + 1 ∧
     idSeq (0 + 1) ≠ 0 ∧
     (idSeq (0 + 1) < MAX_MESSAGE_ID → idSeq (0 + 2) = idSeq (0 + 1) + 1) ∧
     (idSeq (0 + 1) = MAX_MESSAGE_ID → idSeq (0 + 2) = 1) ∧
     idSeq (1 + 1) ≠ idSeq (0 + 1)) :=
  ⟨by decide, by decide, nextId_spec 0 1 (by decide) (by decide)⟩

section MapLemmas

variable {κ T : Type} [DecidableEq κ]

theorem mapGet?_eq_none_iff (m : List (κ × T)) (k : κ) :
    mapGet? m k = none ↔ k ∉ mapKeys m := by
  induction m with
  | nil => simp [mapGet?, mapKeys]
  | cons p rest ih =>
      obtain ⟨k', v⟩ := p
      by_cases h : k' = k
      · subst h
        simp [mapGet?, mapKeys]
      · have h2 : ¬k = k' := fun hh => h hh.symm
        simp [mapGet?, mapKeys, h, h2, ih]

omit [DecidableEq κ] in
theorem mem_mapKeys_of_mem {m : List (κ × T)} {k : κ} {v : T} (h : (k, v) ∈ m) :
    k ∈ mapKeys m :=
  List.mem_map_of_mem Prod.fst h

theorem mapGet?_of_mem {m : List (κ × T)} {k : κ} {v : T}
    (hnd : (mapKeys m).Nodup) (h : (k, v) ∈ m) : mapGet? m k = some v := by
  induction m with
  | nil => cases h
  | cons p rest ih =>
      obtain ⟨k', v'⟩ := p
      rcases List.mem_cons.mp h with hh | ht
      · obtain ⟨rfl, rfl⟩ := Prod.mk.injEq .. ▸ hh
        simp [mapGet?]
      · have hk : k ∈ mapKeys rest := mem_mapKeys_of_mem ht
        have hne : k' ≠ k := by
          rintro rfl
          exact ((List.nodup_cons.mp (by simpa [mapKeys] using hnd)).1 hk)
        simp only [mapGet?, if_neg hne]
        exact ih (List.nodup_cons.mp (by simpa [mapKeys] using hnd)).2 ht

theorem mapGet?_set_self (m : List (κ × T)) (k : κ) (v : T) :
    mapGet? (mapSet m k v) k = some v := by
  induction m with
  | nil => simp [mapSet, mapGet?]
  | cons p rest ih =>
      obtain ⟨k', v'⟩ := p
      by_cases h : k' = k <;> simp [mapSet, mapGet?, h, ih]

theorem mapGet?_set_ne (m : List (κ × T)) {j k : κ} (v : T) (h : j ≠ k) :
    mapGet? (mapSet m k v) j = mapGet? m j := by
  have h2 : ¬k = j := fun hh => h hh.symm
  induction m with
  | nil => simp [mapSet, mapGet?, h2]
  | cons p rest ih =>
      obtain ⟨k', v'⟩ := p
      by_cases hk : k' = k
      · subst hk
        simp [mapSet, mapGet?, h2]
      · by_cases hj : k' = j <;> simp [mapSet, mapGet?, hk, hj, h, h2, ih]

theorem mapGet?_delete_ne (m : List (κ × T)) {j k : κ} (h : j ≠ k) :
    mapGet? (mapDelete m k) j = mapGet? m j := by
  have h2 : ¬k = j := fun hh => h hh.symm
  induction m with
  | nil => simp [mapDelete]
  | cons p rest ih =>
      obtain ⟨k', v'⟩ := p
      by_cases hk : k' = k
      · subst hk
        simp [mapDelete, mapGet?, h2]
      · by_cases hj : k' = j <;> simp [mapDelete, mapGet?, hk, hj, h, h2, ih]

theorem mapDelete_sublist (m : List (κ × T)) (k : κ) : List.Sublist (mapDelete m k) m := by
  induction m with
  | nil => simp [mapDelete]
  | cons p rest ih =>
      obtain ⟨k', v'⟩ := p
      by_cases hk : k' = k
      · simp [mapDelete, hk, List.sublist_cons_self]
      · simpa [mapDelete, hk] using ih.cons₂ (k', v')

theorem mapKeys_delete_nodup {m : List (κ × T)} (k : κ)
    (hnd : (mapKeys m).Nodup) : (mapKeys (mapDelete m k)).Nodup :=
  hnd.sublist ((mapDelete_sublist m k).map Prod.fst)

theorem mapGet?_delete_self {m : List (κ × T)} (k : κ)
    (hnd : (mapKeys m).Nodup) : mapGet? (mapDelete m k) k = none := by
  induction m with
  | nil => simp [mapDelete, mapGet?]
  | cons p rest ih =>
      obtain ⟨k', v'⟩ := p
      have hnd' : (mapKeys rest).Nodup := (List.nodup_cons.mp (by simpa [mapKeys] using hnd)).2
      by_cases hk : k' = k
      · subst hk
        have : k' ∉ mapKeys rest := (List.nodup_cons.mp (by simpa [mapKeys] using hnd)).1
        simpa [mapDelete] using (mapGet?_eq_none_iff rest k').mpr this
      · simp [mapDelete, mapGet?, hk, ih hnd']

theorem mapDelete_set_self {m : List (κ × T)} {k : κ} (v : T)
    (h : mapGet? m k = none) : mapDelete (mapSet m k v) k = m := by
  induction m with
  | nil => simp [mapSet, mapDelete]
  | cons p rest ih =>
      obtain ⟨k', v'⟩ := p
      by_cases hk : k' = k
      · subst hk
        simp [mapGet?] at h
      · have h' : mapGet? rest k = none := by simpa [mapGet?, hk] using h
        simp [mapSet, mapDelete, hk, ih h']

theorem mapDelete_set_ne (m : List (κ × T)) {i j : κ} (v : T) (h : i ≠ j) :
    mapDelete (mapSet m j v) i = mapSet (mapDelete m i) j v := by
  have h2 : ¬j = i := fun hh => h hh.symm
  induction m with
  | nil => simp [mapSet, mapDelete, h2]
  | cons p rest ih =>
      obtain ⟨k', v'⟩ := p
      by_cases hj : k' = j
      · subst hj
        simp [mapSet, mapDelete, h2, ih]
      · by_cases hi : k' = i <;> simp [mapSet, mapDelete, hi, hj, h, h2, ih]

theorem erase_append_singleton {l : List Nat} {a : Nat} (h : a ∉ l) :
    (l ++ [a]).erase a = l := by
  rw [List.erase_append_right _ h]
  simp

end MapLemmas

section ReconcileLemmas

variable {Raw T : Type} {rawIndex : Raw → Int} {featuresOf : T → DeviceFeatures}
variable {createDevice : Raw → T}

theorem removePhase_get?_stable (inc : List Int) {i : Int} :
    ∀ (idxs : List Int) (m : List (Int × T)), i ∉ idxs →
      mapGet? (removePhase inc m idxs).1 i = mapGet? m i := by
  intro idxs
  induction idxs with
  | nil => intro m _; simp [removePhase]
  | cons j rest ih =>
      intro m hi
      have hij : i ≠ j := fun h => hi (h ▸ List.mem_cons_self j rest)
      have hirest : i ∉ rest := fun h => hi (List.mem_cons_of_mem j h)
      by_cases hj : j ∈ inc
      · simpa [removePhase, hj] using ih m hirest
      · rcases hg : mapGet? m j with _ | d
        · simpa [removePhase, hj, hg] using ih m hirest
        · have hrec := ih (mapDelete m j) hirest
          simp [removePhase, hj, hg, hrec, mapGet?_delete_ne _ hij]

theorem removePhase_get?_of_mem_incoming {inc : List Int} {i : Int} (hi : i ∈ inc) :
    ∀ (idxs : List Int) (m : List (Int × T)),
      mapGet? (removePhase inc m idxs).1 i = mapGet? m i := by
  intro idxs
  induction idxs with
  | nil => intro m; simp [removePhase]
  | cons j rest ih =>
      intro m
      by_cases hj : j ∈ inc
      · simpa [removePhase, hj] using ih m
      · have hij : i ≠ j := fun h => hj (h ▸ hi)
        rcases hg : mapGet? m j with _ | d
        · simpa [removePhase, hj, hg] using ih m
        · have hrec := ih (mapDelete m j)
          simp [removePhase, hj, hg, hrec, mapGet?_delete_ne _ hij]

theorem removePhase_cons_del {inc : List Int} {j : Int} {m : List (Int × T)} {d : T}
    (hj : j ∉ inc) (hg : mapGet? m j = some d) (rest : List Int) :
    removePhase inc m (j :: rest)
      = ((removePhase inc (mapDelete m j) rest).1,
         ReconcileEvent.removed d :: (removePhase inc (mapDelete m j) rest).2) := by
  simp [removePhase, hj, hg]

theorem upsertPhase_cons_update {cur : List Int} {r : Raw} {m : List (Int × T)}
    {existing : T} (hc : rawIndex r ∈ cur)
    (hg : mapGet? m (rawIndex r) = some existing)
    (hfe : featuresEqual (featuresOf existing) (featuresOf (createDevice r)) = false)
    (rest : List Raw) :
    upsertPhase rawIndex featuresOf createDevice cur m (r :: rest)
      = ((upsertPhase rawIndex featuresOf createDevice cur
            (mapSet m (rawIndex r) (createDevice r)) rest).1,
         ReconcileEvent.updated (createDevice r) existing ::
           (upsertPhase rawIndex featuresOf createDevice cur
             (mapSet m (rawIndex r) (createDevice r)) rest).2) := by
  simp [upsertPhase, hc, hg, hfe]

theorem upsertPhase_cons_add {cur : List Int} {r : Raw} {m : List (Int × T)}
    (hc : rawIndex r ∉ cur) (rest : List Raw) :
    upsertPhase rawIndex featuresOf createDevice cur m (r :: rest)
      = ((upsertPhase rawIndex featuresOf createDevice cur
            (mapSet m (rawIndex r) (createDevice r)) rest).1,
         ReconcileEvent.added (createDevice r) ::
           (upsertPhase rawIndex featuresOf createDevice cur
             (mapSet m (rawIndex r) (createDevice r)) rest).2) := by
  simp [upsertPhase, hc]

theorem removePhase_events_shape (inc : List Int) :
    ∀ (idxs : List Int) (m : List (Int × T)) (ev : ReconcileEvent T),
      ev ∈ (removePhase inc m idxs).2 → ∃ d, ev = ReconcileEvent.removed d := by
  intro idxs
  induction idxs with
  | nil => intro m ev h; simp [removePhase] at h
  | cons j rest ih =>
      intro m ev h
      by_cases hj : j ∈ inc
      · exact ih m ev (by simpa [removePhase, hj] using h)
      · rcases hg : mapGet? m j with _ | d
        · exact ih m ev (by simpa [removePhase, hj, hg] using h)
        · rw [removePhase_cons_del hj hg rest] at h
          rcases List.mem_cons.mp h with h | h
          · exact ⟨d, h⟩
          · exact ih (mapDelete m j) ev h

theorem removePhase_removes {inc : List Int} {i : Int} {d : T} :
    ∀ (idxs : List Int) (m : List (Int × T)), i ∈ idxs → i ∉ inc → idxs.Nodup →
      (mapKeys m).Nodup → mapGet? m i = some d →
      ReconcileEvent.removed d ∈ (removePhase inc m idxs).2 ∧
      mapGet? (removePhase inc m idxs).1 i = none := by
  intro idxs
  induction idxs with
  | nil => intro m h; cases h
  | cons j rest ih =>
      intro m hmem hninc hnd hmnd hget
      by_cases hji : j = i
      · subst hji
        have hjrest : j ∉ rest := (List.nodup_cons.mp hnd).1
        have hstable := removePhase_get?_stable inc rest (mapDelete m j) hjrest
        rw [removePhase_cons_del hninc hget rest]
        refine ⟨List.mem_cons_self _ _, ?_⟩
        simpa [hstable] using mapGet?_delete_self j hmnd
      · have hmem' : i ∈ rest := by
          rcases List.mem_cons.mp hmem with h | h
          · exact absurd h.symm hji
          · exact h
        have hnd' : rest.Nodup := (List.nodup_cons.mp hnd).2
        by_cases hj : j ∈ inc
        · have := ih m hmem' hninc hnd' hmnd hget
          simpa [removePhase, hj] using this
        · rcases hg : mapGet? m j with _ | dj
          · have := ih m hmem' hninc hnd' hmnd hget
            simpa [removePhase, hj, hg] using this
          · have hget' : mapGet? (mapDelete m j) i = some d := by
              rw [mapGet?_delete_ne _ (fun h => hji h.symm)]
              exact hget
            have hrec := ih (mapDelete m j) hmem' hninc hnd'
              (mapKeys_delete_nodup j hmnd) hget'
            rw [removePhase_cons_del hj hg rest]
            exact ⟨List.mem_cons_of_mem _ hrec.1, hrec.2⟩

theorem upsertPhase_get?_stable (cur : List Int) {i : Int} :
    ∀ (rs : List Raw) (m : List (Int × T)), i ∉ rs.map rawIndex →
      mapGet? (upsertPhase rawIndex featuresOf createDevice cur m rs).1 i
        = mapGet? m i := by
  intro rs
  induction rs with
  | nil => intro m _; simp [upsertPhase]
  | cons raw rest ih =>
      intro m hi
      have hir : i ≠ rawIndex raw := fun h =>
        hi (h ▸ List.mem_map_of_mem rawIndex (List.mem_cons_self raw rest))
      have hirest : i ∉ rest.map rawIndex := by
        intro h
        exact hi (by simp [List.mem_cons, h])
      by_cases hc : rawIndex raw ∈ cur
      · rcases hg : mapGet? m (rawIndex raw) with _ | existing
        · simpa [upsertPhase, hc, hg] using ih m hirest
        · rcases hfe : featuresEqual (featuresOf existing) (featuresOf (createDevice raw)) with _ | _
          · rw [upsertPhase_cons_update hc hg hfe rest]
            rw [ih (mapSet m (rawIndex raw) (createDevice raw)) hirest]
            exact mapGet?_set_ne _ _ hir
          · simpa [upsertPhase, hc, hg, hfe] using ih m hirest
      · rw [upsertPhase_cons_add hc rest]
        rw [ih (mapSet m (rawIndex raw) (createDevice raw)) hirest]
        exact mapGet?_set_ne _ _ hir

theorem upsertPhase_adds {cur : List Int} {raw : Raw} :
    ∀ (rs : List Raw) (m : List (Int × T)), raw ∈ rs → rawIndex raw ∉ cur →
      (rs.map rawIndex).Nodup →
      ReconcileEvent.added (createDevice raw)
          ∈ (upsertPhase rawIndex featuresOf createDevice cur m rs).2 ∧
      mapGet? (upsertPhase rawIndex featuresOf createDevice cur m rs).1 (rawIndex raw)
          = some (createDevice raw) := by
  intro rs
  induction rs with
  | nil => intro m h; cases h
  | cons r rest ih =>
      intro m hmem hncur hnd
      have hndrest : (rest.map rawIndex).Nodup :=
        (List.nodup_cons.mp (by simpa using hnd)).2
      by_cases hrr : r = raw
      · subst hrr
        have hstable : rawIndex r ∉ rest.map rawIndex :=
          (List.nodup_cons.mp (by simpa using hnd)).1
        have hpres := @upsertPhase_get?_stable Raw T rawIndex featuresOf
          createDevice cur (rawIndex r) rest
          (mapSet m (rawIndex r) (createDevice r)) hstable
        rw [upsertPhase_cons_add hncur rest]
        refine ⟨List.mem_cons_self _ _, ?_⟩
        simpa [hpres] using mapGet?_set_self m (rawIndex r) (createDevice r)
      · have hmem' : raw ∈ rest := by
          rcases List.mem_cons.mp hmem with h | h
          · exact absurd h.symm hrr
          · exact h
        by_cases hc : rawIndex r ∈ cur
        · rcases hg : mapGet? m (rawIndex r) with _ | existing
          · simpa [upsertPhase, hc, hg] using ih m hmem' hncur hndrest
          · rcases hfe : featuresEqual (featuresOf existing) (featuresOf (createDevice r)) with _ | _
            · have hrec := ih (mapSet m (rawIndex r) (createDevice r)) hmem' hncur hndrest
              rw [upsertPhase_cons_update hc hg hfe rest]
              exact ⟨List.mem_cons_of_mem _ hrec.1, hrec.2⟩
            · simpa [upsertPhase, hc, hg, hfe] using ih m hmem' hncur hndrest
        · have hrec := ih (mapSet m (rawIndex r) (createDevice r)) hmem' hncur hndrest
          rw [upsertPhase_cons_add hc rest]
          exact ⟨List.mem_cons_of_mem _ hrec.1, hrec.2⟩

theorem upsertPhase_updated_inv {cur : List Int} {n o : T} :
    ∀ (rs : List Raw) (m : List (Int × T)), (rs.map rawIndex).Nodup →
      ReconcileEvent.updated n o
          ∈ (upsertPhase rawIndex featuresOf createDevice cur m rs).2 →
      ∃ raw, raw ∈ rs ∧ rawIndex raw ∈ cur ∧ n = createDevice raw ∧
        mapGet? m (rawIndex raw) = some o ∧
        featuresEqual (featuresOf o) (featuresOf n) = false := by
  intro rs
  induction rs with
  | nil => intro m _ h; simp [upsertPhase] at h
  | cons r rest ih =>
      intro m hnd hmem
      have hndrest : (rest.map rawIndex).Nodup :=
        (List.nodup_cons.mp (by simpa using hnd)).2
      have hstab : rawIndex r ∉ rest.map rawIndex :=
        (List.nodup_cons.mp (by simpa using hnd)).1
      by_cases hc : rawIndex r ∈ cur
      · rcases hg : mapGet? m (rawIndex r) with _ | existing
        · rcases ih m hndrest (by simpa [upsertPhase, hc, hg] using hmem) with
            ⟨raw, h1, h2, h3, h4, h5⟩
          exact ⟨raw, List.mem_cons_of_mem r h1, h2, h3, h4, h5⟩
        · rcases hfe : featuresEqual (featuresOf existing) (featuresOf (createDevice r)) with _ | _
          · rw [upsertPhase_cons_update hc hg hfe rest] at hmem
            rcases List.mem_cons.mp hmem with hmem | hmem
            · have hn : n = createDevice r := by injection hmem
              have ho : o = existing := by injection hmem
              subst hn
              subst ho
              exact ⟨r, List.mem_cons_self r rest, hc, rfl, hg, hfe⟩
            · rcases ih (mapSet m (rawIndex r) (createDevice r)) hndrest hmem with
                ⟨raw, h1, h2, h3, h4, h5⟩
              have hne : rawIndex raw ≠ rawIndex r := by
                intro h
                exact hstab (h ▸ List.mem_map_of_mem rawIndex h1)
              rw [mapGet?_set_ne _ _ hne] at h4
              exact ⟨raw, List.mem_cons_of_mem r h1, h2, h3, h4, h5⟩
          · rcases ih m hndrest (by simpa [upsertPhase, hc, hg, hfe] using hmem) with
              ⟨raw, h1, h2, h3, h4, h5⟩
            exact ⟨raw, List.mem_cons_of_mem r h1, h2, h3, h4, h5⟩
      · rw [upsertPhase_cons_add hc rest] at hmem
        rcases List.mem_cons.mp hmem with hmem | hmem
        · cases hmem
        · rcases ih (mapSet m (rawIndex r) (createDevice r)) hndrest hmem with
            ⟨raw, h1, h2, h3, h4, h5⟩
          have hne : rawIndex raw ≠ rawIndex r := by
            intro h
            exact hstab (h ▸ List.mem_map_of_mem rawIndex h1)
          rw [mapGet?_set_ne _ _ hne] at h4
          exact ⟨raw, List.mem_cons_of_mem r h1, h2, h3, h4, h5⟩

theorem upsertPhase_events_shape (cur : List Int) :
    ∀ (rs : List Raw) (m : List (Int × T)) (ev : ReconcileEvent T),
      ev ∈ (upsertPhase rawIndex featuresOf createDevice cur m rs).2 →
      (∃ d, ev = ReconcileEvent.added d) ∨
      (∃ a b, ev = ReconcileEvent.updated a b) := by
  intro rs
  induction rs with
  | nil => intro m ev h; simp [upsertPhase] at h
  | cons r rest ih =>
      intro m ev h
      by_cases hc : rawIndex r ∈ cur
      · rcases hg : mapGet? m (rawIndex r) with _ | existing
        · exact ih m ev (by simpa [upsertPhase, hc, hg] using h)
        · rcases hfe : featuresEqual (featuresOf existing) (featuresOf (createDevice r)) with _ | _
          · rw [upsertPhase_cons_update hc hg hfe rest] at h
            rcases List.mem_cons.mp h with h | h
            · exact Or.inr ⟨createDevice r, existing, h⟩
            · exact ih (mapSet m (rawIndex r) (createDevice r)) ev h
          · exact ih m ev (by simpa [upsertPhase, hc, hg, hfe] using h)
      · rw [upsertPhase_cons_add hc rest] at h
        rcases List.mem_cons.mp h with h | h
        · exact Or.inl ⟨createDevice r, h⟩
        · exact ih (mapSet m (rawIndex r) (createDevice r)) ev h

end ReconcileLemmas

/-- Unfolding equation for reconcileDevices in terms of its two phases. -/
theorem reconcileDevices_eq {Raw T : Type} (rawIndex : Raw → Int)
    (featuresOf : T → DeviceFeatures) (createDevice : Raw → T)
    (current : List (Int × T)) (incomingRaw : List Raw) :
    reconcileDevices rawIndex featuresOf createDevice current incomingRaw
      = ((upsertPhase rawIndex featuresOf createDevice (mapKeys current)
            (removePhase (incomingRaw.map rawIndex) current (mapKeys current)).1
            incomingRaw).1,
         (removePhase (incomingRaw.map rawIndex) current (mapKeys current)).2
           ++ (upsertPhase rawIndex featuresOf createDevice (mapKeys current)
                (removePhase (incomingRaw.map rawIndex) current (mapKeys current)).1
                incomingRaw).2
           ++ [ReconcileEvent.list
                (mapValues (upsertPhase rawIndex featuresOf createDevice (mapKeys current)
                  (removePhase (incomingRaw.map rawIndex) current (mapKeys current)).1
                  incomingRaw).1)]) := rfl

/-- Inversion for update events of the full diff: an update is only
reported for an index present in both tables, replacing the record stored
in the original current table, and only when the capability sets compare
structurally different. -/
theorem reconcile_updated_inv {Raw T : Type} {rawIndex : Raw → Int}
    {featuresOf : T → DeviceFeatures} {createDevice : Raw → T}
    {current : List (Int × T)} {incomingRaw : List Raw} {n o : T}
    (hinc : (incomingRaw.map rawIndex).Nodup)
    (h : ReconcileEvent.updated n o
        ∈ (reconcileDevices rawIndex featuresOf createDevice current incomingRaw).2) :
    ∃ raw, raw ∈ incomingRaw ∧ rawIndex raw ∈ mapKeys current ∧
      n = createDevice raw ∧ mapGet? current (rawIndex raw) = some o ∧
      featuresEqual (featuresOf o) (featuresOf n) = false := by
  rw [reconcileDevices_eq] at h
  simp only [List.mem_append, List.mem_singleton] at h
  rcases h with (h | h) | h
  · rcases removePhase_events_shape _ _ _ _ h with ⟨d, hd⟩
    simp at hd
  · rcases upsertPhase_updated_inv _ _ hinc h with ⟨raw, h1, h2, h3, h4, h5⟩
    rw [removePhase_get?_of_mem_incoming (List.mem_map_of_mem rawIndex h1) _ _] at h4
    exact ⟨raw, h1, h2, h3, h4, h5⟩
  · simp at h

/-- C2: the reconciliation diff over a current table with no duplicate
keys and an incoming list with no duplicate indices reports a removal (and
deletes the record) for every index present only in the current table,
reports an addition (and inserts the record) for every index present only
in the incoming list, reports updates only for indices present in both
whose capability sets differ structurally, and reports the final snapshot
exactly once, after all other events. -/
theorem reconcileDevices_spec {Raw T : Type} (rawIndex : Raw → Int)
    (featuresOf : T → DeviceFeatures) (createDevice : Raw → T)
    (current : List (Int × T)) (incomingRaw : List Raw)
    (hcur : (mapKeys current).Nodup) (hinc : (incomingRaw.map rawIndex).Nodup) :
    (∀ i d, (i, d) ∈ current → i ∉ incomingRaw.map rawIndex →
        ReconcileEvent.removed d
            ∈ (reconcileDevices rawIndex featuresOf createDevice current incomingRaw).2 ∧
        mapGet? (reconcileDevices rawIndex featuresOf createDevice current incomingRaw).1 i
            = none) ∧
    (∀ raw, raw ∈ incomingRaw → rawIndex raw ∉ mapKeys current →
        ReconcileEvent.added (createDevice raw)
            ∈ (reconcileDevices rawIndex featuresOf createDevice current incomingRaw).2 ∧
        mapGet? (reconcileDevices rawIndex featuresOf createDevice current incomingRaw).1
            (rawIndex raw) = some (createDevice raw)) ∧
    (∀ n o, ReconcileEvent.updated n o
        ∈ (reconcileDevices rawIndex featuresOf createDevice current incomingRaw).2 →
        ∃ raw, raw ∈ incomingRaw ∧ rawIndex raw ∈ mapKeys current ∧
          n = createDevice raw ∧ mapGet? current (rawIndex raw) = some o ∧
          featuresEqual (featuresOf o) (featuresOf n) = false) ∧
    (∃ body,
        (reconcileDevices rawIndex featuresOf createDevice current incomingRaw).2
          = body ++ [ReconcileEvent.list
              (mapValues (reconcileDevices rawIndex featuresOf createDevice
                current incomingRaw).1)] ∧
        ∀ ev, ev ∈ body → ReconcileEvent.isList ev = false) := by
  refine ⟨?_, ?_, ?_, ?_⟩
  · intro i d hm hni
    have hkey : i ∈ mapKeys current := mem_mapKeys_of_mem hm
    have hget : mapGet? current i = some d := mapGet?_of_mem hcur hm
    have hrem := removePhase_removes (mapKeys current) current hkey hni hcur hcur hget
    have hstab := @upsertPhase_get?_stable Raw T rawIndex featuresOf
      createDevice (mapKeys current) i incomingRaw
      (removePhase (incomingRaw.map rawIndex) current (mapKeys current)).1 hni
    rw [reconcileDevices_eq]
    constructor
    · simp only [List.mem_append]
      exact Or.inl (Or.inl hrem.1)
    · rw [hstab, hrem.2]
  · intro raw hr hnc
    have hstab := removePhase_get?_stable (incomingRaw.map rawIndex)
      (mapKeys current) current hnc
    have hadd := @upsertPhase_adds Raw T rawIndex featuresOf createDevice
      (mapKeys current) raw incomingRaw
      (removePhase (incomingRaw.map rawIndex) current (mapKeys current)).1 hr hnc hinc
    rw [reconcileDevices_eq]
    constructor
    · simp only [List.mem_append]
      exact Or.inl (Or.inr hadd.1)
    · exact hadd.2
  · intro n o h
    exact reconcile_updated_inv hinc h
  · rw [reconcileDevices_eq]
    refine ⟨(removePhase (incomingRaw.map rawIndex) current (mapKeys current)).2
        ++ (upsertPhase rawIndex featuresOf createDevice (mapKeys current)
            (removePhase (incomingRaw.map rawIndex) current (mapKeys current)).1
            incomingRaw).2, by simp, ?_⟩
    intro ev hev
    rcases List.mem_append.mp hev with hev | hev
    · rcases removePhase_events_shape _ _ _ _ hev with ⟨d, rfl⟩
      rfl
    · rcases upsertPhase_events_shape _ _ _ _ hev with ⟨d, rfl⟩ | ⟨a, b, rfl⟩ <;> rfl

/-- Witness for reconcileDevices_spec: reconciling the empty incoming list
against the current table with devices A at index 0 and B at index 1
removes A (and B), leaves no record at index 0, and reports the removals
followed by the single final empty snapshot. -/
theorem reconcileDevices_spec_witness :
    (mapKeys [((0 : Int), deviceA), (1, deviceB)]).Nodup ∧
    ((([] : List Int).map (fun i => i)).Nodup) ∧
    (ReconcileEvent.removed deviceA
        ∈ (reconcileDevices (fun i => i) DeviceRecord.features (fun _ => deviceA)
             [((0 : Int), deviceA), (1, deviceB)] ([] : List Int)).2 ∧
     mapGet? (reconcileDevices (fun i => i) DeviceRecord.features (fun _ => deviceA)
             [((0 : Int), deviceA), (1, deviceB)] ([] : List Int)).1 0 = none) ∧
    (reconcileDevices (fun i => i) DeviceRecord.features (fun _ => deviceA)
        [((0 : Int), deviceA), (1, deviceB)] ([] : List Int)).2
      = [ReconcileEvent.removed deviceA, ReconcileEvent.removed deviceB,
         ReconcileEvent.list []] :=
  ⟨by decide, by decide,
   (reconcileDevices_spec (fun i => i) DeviceRecord.features (fun _ => deviceA)
      [((0 : Int), deviceA), (1, deviceB)] ([] : List Int) (by decide) (by decide)).1
      0 deviceA (by decide) (by decide),
   by decide⟩

section SortLemmas

variable {α : Type}

theorem insertByKey_perm (key : α → Int) (x : α) :
    ∀ l : List α, List.Perm (insertByKey key x l) (x :: l) := by
  intro l
  induction l with
  | nil => simp [insertByKey]
  | cons y ys ih =>
      by_cases h : key x ≤ key y
      · simp [insertByKey, h]
      · have he : insertByKey key x (y :: ys) = y :: insertByKey key x ys := by
          simp [insertByKey, h]
        rw [he]
        exact (ih.cons y).trans (List.Perm.swap x y ys)

theorem sortByKey_perm (key : α → Int) :
    ∀ l : List α, List.Perm (sortByKey key l) l := by
  intro l
  induction l with
  | nil => simp [sortByKey]
  | cons x xs ih =>
      exact (insertByKey_perm key x (sortByKey key xs)).trans (ih.cons x)

theorem insertByKey_sorted (key : α → Int) (x : α) :
    ∀ l : List α, l.Pairwise (fun a b => key a ≤ key b) →
      (insertByKey key x l).Pairwise (fun a b => key a ≤ key b) := by
  intro l
  induction l with
  | nil => intro _; simp [insertByKey]
  | cons y ys ih =>
      intro h
      rcases List.pairwise_cons.mp h with ⟨hy, hys⟩
      by_cases hxy : key x ≤ key y
      · simp only [insertByKey, if_pos hxy]
        refine List.pairwise_cons.mpr ⟨?_, h⟩
        intro b hb
        rcases List.mem_cons.mp hb with rfl | hb
        · exact hxy
        · exact le_trans hxy (hy b hb)
      · simp only [insertByKey, if_neg hxy]
        refine List.pairwise_cons.mpr ⟨?_, ih hys⟩
        intro b hb
        have hmem := (insertByKey_perm key x ys).mem_iff.mp hb
        rcases List.mem_cons.mp hmem with rfl | hb2
        · exact (not_le.mp hxy).le
        · exact hy b hb2

theorem sortByKey_sorted (key : α → Int) :
    ∀ l : List α, (sortByKey key l).Pairwise (fun a b => key a ≤ key b) := by
  intro l
  induction l with
  | nil => simp [sortByKey]
  | cons x xs ih => exact insertByKey_sorted key x (sortByKey key xs) ih

theorem eq_of_perm_of_sortedKey (key : α → Int) :
    ∀ (l₁ l₂ : List α), List.Perm l₁ l₂ →
      l₁.Pairwise (fun a b => key a ≤ key b) →
      l₂.Pairwise (fun a b => key a ≤ key b) →
      (l₁.map key).Nodup → l₁ = l₂ := by
  intro l₁
  induction l₁ with
  | nil =>
      intro l₂ hp _ _ _
      exact hp.nil_eq
  | cons a t ih =>
      intro l₂ hp hs₁ hs₂ hnd
      cases l₂ with
      | nil =>
          have := hp.length_eq
          simp at this
      | cons b t₂ =>
          by_cases hab : a = b
          · subst hab
            have hpt : List.Perm t t₂ := hp.cons_inv
            have ht : t = t₂ :=
              ih t₂ hpt (List.pairwise_cons.mp hs₁).2 (List.pairwise_cons.mp hs₂).2
                (List.nodup_cons.mp (by simpa using hnd)).2
            rw [ht]
          · exfalso
            have hbmem : b ∈ a :: t := hp.mem_iff.mpr (List.mem_cons_self b t₂)
            have hamem : a ∈ b :: t₂ := hp.mem_iff.mp (List.mem_cons_self a t)
            have hbt : b ∈ t := by
              rcases List.mem_cons.mp hbmem with h | h
              · exact absurd h.symm hab
              · exact h
            have hkab : key a ≤ key b := (List.pairwise_cons.mp hs₁).1 b hbt
            have hkba : key b ≤ key a := by
              rcases List.mem_cons.mp hamem with h | h
              · exact le_of_eq (congrArg key h).symm
              · exact (List.pairwise_cons.mp hs₂).1 a h
            have hk : key a = key b := le_antisymm hkab hkba
            have hmemk : key b ∈ t.map key := List.mem_map_of_mem key hbt
            exact (List.nodup_cons.mp (by simpa using hnd)).1 (hk ▸ hmemk)

theorem sortByKey_eq_of_perm (key : α → Int) {a b : List α}
    (hperm : List.Perm a b) (hnd : (a.map key).Nodup) :
    sortByKey key a = sortByKey key b := by
  apply eq_of_perm_of_sortedKey key
  · exact (sortByKey_perm key a).trans (hperm.trans (sortByKey_perm key b).symm)
  · exact sortByKey_sorted key a
  · exact sortByKey_sorted key b
  · exact (((sortByKey_perm key a).map key).nodup_iff).mpr hnd

end SortLemmas

theorem outputPairsCheck_refl : ∀ l : List OutputFeature, outputPairsCheck l l = true := by
  intro l
  induction l with
  | nil => rfl
  | cons a as ih => simp [outputPairsCheck, outputFeatureFieldsEqual, ih]

theorem inputPairsCheck_refl : ∀ l : List InputFeature, inputPairsCheck l l = true := by
  intro l
  induction l with
  | nil => rfl
  | cons a as ih => simp [inputPairsCheck, inputFeatureFieldsEqual, ih]

/-- Capability sets holding the same features up to reordering compare
structurally equal, provided feature indices are pairwise distinct within
each array (so the sort by feature index puts both in the same order). -/
theorem featuresEqual_of_perm (F G : DeviceFeatures)
    (hout : List.Perm F.outputs G.outputs) (hin : List.Perm F.inputs G.inputs)
    (hndo : (F.outputs.map OutputFeature.index).Nodup)
    (hndi : (F.inputs.map InputFeature.index).Nodup) :
    featuresEqual F G = true := by
  unfold featuresEqual
  rw [hout.length_eq, hin.length_eq]
  simp only [bne_self_eq_false, Bool.or_self, if_false, Bool.false_eq_true, ite_false]
  unfold outputFeaturesEqual inputFeaturesEqual
  rw [sortByKey_eq_of_perm OutputFeature.index hout hndo,
      sortByKey_eq_of_perm InputFeature.index hin hndi]
  simp [outputPairsCheck_refl, inputPairsCheck_refl]

/-- C8 counterexample: two capability sets holding the same features up to
reordering, where two different capabilities share feature index 0,
compare structurally different, and reconciling the corresponding pair of
records reports an update. -/
theorem featuresEqual_perm_counterexample :
    List.Perm featuresDupA.outputs featuresDupB.outputs ∧
    List.Perm featuresDupA.inputs featuresDupB.inputs ∧
    featuresEqual featuresDupA featuresDupB = false ∧
    ReconcileEvent.updated deviceDupB deviceDupA
      ∈ (reconcileDevices DeviceRecord.index DeviceRecord.features (fun d => d)
           [((0 : Int), deviceDupA)] [deviceDupB]).2 :=
  ⟨List.Perm.swap oscillateAt0 vibrateAt0 [], List.Perm.nil, by decide, by decide⟩

/-- C8 (amended): for records whose capability sets hold the same features
up to reordering and whose feature indices are pairwise distinct within
each array, the structural comparison returns true, and reconciling such a
pair reports no update. -/
theorem featuresEqual_perm_spec (A B : DeviceRecord)
    (hout : List.Perm A.features.outputs B.features.outputs)
    (hin : List.Perm A.features.inputs B.features.inputs)
    (hndo : (A.features.outputs.map OutputFeature.index).Nodup)
    (hndi : (A.features.inputs.map InputFeature.index).Nodup) :
    featuresEqual A.features B.features = true ∧
    ∀ n o, ReconcileEvent.updated n o
        ∉ (reconcileDevices DeviceRecord.index DeviceRecord.features
             (fun d => d) [(B.index, A)] [B]).2 := by
  have hfe := featuresEqual_of_perm A.features B.features hout hin hndo hndi
  refine ⟨hfe, ?_⟩
  intro n o h
  have hinc : (([B]).map DeviceRecord.index).Nodup := by simp
  rcases reconcile_updated_inv hinc h with ⟨raw, hraw, _, hn, hgo, hne⟩
  have hrB : raw = B := by simpa using hraw
  rw [hrB] at hgo hn
  have hn2 : n = B := by simpa using hn
  have hgA : mapGet? [(B.index, A)] (DeviceRecord.index B) = some A := by
    simp [mapGet?]
  have hoA : o = A := (Option.some.inj (hgA.symm.trans hgo)).symm
  rw [hoA, hn2] at hne
  rw [hfe] at hne
  cases hne

/-- Witness for featuresEqual_perm_spec at the concrete pair deviceC and
deviceCSwap, whose two output features at indices 0 and 1 are swapped. -/
theorem featuresEqual_perm_spec_witness :
    List.Perm deviceC.features.outputs deviceCSwap.features.outputs ∧
    List.Perm deviceC.features.inputs deviceCSwap.features.inputs ∧
    (deviceC.features.outputs.map OutputFeature.index).Nodup ∧
    (deviceC.features.inputs.map InputFeature.index).Nodup ∧
    featuresEqual deviceC.features deviceCSwap.features = true ∧
    ReconcileEvent.updated deviceCSwap deviceC
        ∉ (reconcileDevices DeviceRecord.index DeviceRecord.features
             (fun d => d) [(deviceCSwap.index, deviceC)] [deviceCSwap]).2 :=
  ⟨List.Perm.swap rotateAt1 vibrateAt0 [], List.Perm.nil, by decide, by decide,
   (featuresEqual_perm_spec deviceC deviceCSwap
      (List.Perm.swap rotateAt1 vibrateAt0 []) List.Perm.nil
      (by decide) (by decide)).1,
   (featuresEqual_perm_spec deviceC deviceCSwap
      (List.Perm.swap rotateAt1 vibrateAt0 []) List.Perm.nil
      (by decide) (by decide)).2 deviceCSwap deviceC⟩

section RouterLemmas

theorem rollback1_register1_comm (st : RouterState) (id id' : Nat) (hne : id ≠ id')
    (p : PendingEntry) (hget : mapGet? st.pending id = some p)
    (t : Nat) (ht : p.timerId = some t) (htm : t ∈ st.timers) :
    rollback1 (register1 st id') id = register1 (rollback1 st id) id' := by
  have hget' : mapGet? (mapSet st.pending id' ⟨some st.nextTimer⟩) id = some p := by
    rw [mapGet?_set_ne _ _ hne]
    exact hget
  have hpend : mapDelete (mapSet st.pending id' ⟨some st.nextTimer⟩) id
      = mapSet (mapDelete st.pending id) id' ⟨some st.nextTimer⟩ :=
    mapDelete_set_ne _ _ hne
  have htim : (st.timers ++ [st.nextTimer]).erase t
      = st.timers.erase t ++ [st.nextTimer] :=
    List.erase_append_left _ htm
  simp [rollback1, register1, hget, hget', ht, hpend, htim]

theorem rollback1_registerBatch_comm :
    ∀ (ids : List Nat) (st : RouterState) (id : Nat), id ∉ ids →
      ∀ (p : PendingEntry), mapGet? st.pending id = some p →
      ∀ (t : Nat), p.timerId = some t → t ∈ st.timers →
      rollback1 (registerBatch st ids) id = registerBatch (rollback1 st id) ids := by
  intro ids
  induction ids with
  | nil => intro st id _ p _ t _ _; rfl
  | cons i ids ih =>
      intro st id hid p hget t ht htm
      have hne : id ≠ i := fun h => hid (h ▸ List.mem_cons_self i ids)
      have hrest : id ∉ ids := fun h => hid (List.mem_cons_of_mem i h)
      have hget' : mapGet? (register1 st i).pending id = some p := by
        show mapGet? (mapSet st.pending i ⟨some st.nextTimer⟩) id = some p
        rw [mapGet?_set_ne _ _ hne]
        exact hget
      have htm' : t ∈ (register1 st i).timers := List.mem_append_left _ htm
      calc rollback1 (registerBatch st (i :: ids)) id
          = rollback1 (registerBatch (register1 st i) ids) id := rfl
        _ = registerBatch (rollback1 (register1 st i) id) ids :=
            ih (register1 st i) id hrest p hget' t ht htm'
        _ = registerBatch (register1 (rollback1 st id) i) ids := by
            rw [rollback1_register1_comm st id i hne p hget t ht htm]
        _ = registerBatch (rollback1 st id) (i :: ids) := rfl

theorem rollback1_register1_self (st : RouterState) (id : Nat)
    (hfresh : mapGet? st.pending id = none)
    (htb : ∀ u ∈ st.timers, u < st.nextTimer) :
    rollback1 (register1 st id) id = { st with nextTimer := st.nextTimer + 1 } := by
  have hget : mapGet? (mapSet st.pending id ⟨some st.nextTimer⟩) id
      = some ⟨some st.nextTimer⟩ := mapGet?_set_self _ _ _
  have hpend := mapDelete_set_self (⟨some st.nextTimer⟩ : PendingEntry) hfresh
  have hnm : st.nextTimer ∉ st.timers := fun h => lt_irrefl _ (htb _ h)
  have htim : (st.timers ++ [st.nextTimer]).erase st.nextTimer = st.timers :=
    erase_append_singleton hnm
  simp [rollback1, register1, hget, hpend, htim]

theorem rollback_registerBatch_restores :
    ∀ (ids : List Nat) (st : RouterState),
      (∀ i ∈ ids, mapGet? st.pending i = none) → ids.Nodup →
      (∀ u ∈ st.timers, u < st.nextTimer) →
      (rollbackBatch (registerBatch st ids) ids).pending = st.pending ∧
      (rollbackBatch (registerBatch st ids) ids).timers = st.timers := by
  intro ids
  induction ids with
  | nil => intro st _ _ _; exact ⟨rfl, rfl⟩
  | cons id ids ih =>
      intro st hfresh hnd htb
      have hid : id ∉ ids := (List.nodup_cons.mp hnd).1
      have step1 : rollbackBatch (registerBatch st (id :: ids)) (id :: ids)
          = rollbackBatch (rollback1 (registerBatch (register1 st id) ids) id) ids := rfl
      have hmemt : st.nextTimer ∈ (register1 st id).timers :=
        List.mem_append_right _ (List.mem_singleton_self _)
      have hcomm := rollback1_registerBatch_comm ids (register1 st id) id hid
        ⟨some st.nextTimer⟩ (mapGet?_set_self _ _ _) st.nextTimer rfl hmemt
      have hself := rollback1_register1_self st id
        (hfresh id (List.mem_cons_self id ids)) htb
      have hrec := ih { st with nextTimer := st.nextTimer + 1 }
        (fun i hi => hfresh i (List.mem_cons_of_mem id hi)) (List.nodup_cons.mp hnd).2
        (fun u hu => Nat.lt_succ_of_lt (htb u hu))
      rw [step1, hcomm, hself]
      exact hrec

end RouterLemmas

/-- C4: when the underlying transport send throws synchronously during a
batch send of fresh correlation ids, every pending entry newly registered
for the batch is removed again and its timeout cleared before the failure
propagates, so the pending table and the armed-timer set are left exactly
as they were before the call. -/
theorem send_rollback_spec (st : RouterState) (ids : List Nat)
    (hfresh : ∀ i ∈ ids, mapGet? st.pending i = none) (hnodup : ids.Nodup)
    (htimers : ∀ u ∈ st.timers, u < st.nextTimer) :
    (sendModel st ids true).pending = st.pending ∧
    (sendModel st ids true).timers = st.timers := by
  have h := rollback_registerBatch_restores ids st hfresh hnodup htimers
  simpa [sendModel] using h

/-- Witness for send_rollback_spec: a throwing send of the fresh batch ids
6 and 7 against the example state restores its table and timers. -/
theorem send_rollback_spec_witness :
    (sendModel routerStateEx [6, 7] true).pending = routerStateEx.pending ∧
    (sendModel routerStateEx [6, 7] true).timers = routerStateEx.timers :=
  send_rollback_spec routerStateEx [6, 7] (by decide) (by decide) (by decide)

/-- C7: when a request's timeout fires while the request is still pending,
the request is rejected with a timeout fault carrying the configured
duration, its pending-table entry is removed so no entry leaks, and no
other entry is touched. -/
theorem request_timeout_spec (st : RouterState) (id : Nat) (p : PendingEntry)
    (_hpend : mapGet? st.pending id = some p)
    (hnd : (mapKeys st.pending).Nodup) :
    (requestTimeoutFire st id).2
      = Settlement.rejected
          (BError.timeout ("Request (ID " ++ toString id ++ ")") st.timeout) ∧
    mapGet? (requestTimeoutFire st id).1.pending id = none ∧
    (∀ j, j ≠ id → mapGet? (requestTimeoutFire st id).1.pending j
        = mapGet? st.pending j) := by
  refine ⟨rfl, ?_, ?_⟩
  · show mapGet? (mapDelete st.pending id) id = none
    exact mapGet?_delete_self id hnd
  · intro j hj
    exact mapGet?_delete_ne _ hj

/-- Witness for request_timeout_spec at the example state and its pending
id 5. -/
theorem request_timeout_spec_witness :
    (requestTimeoutFire routerStateEx 5).2
      = Settlement.rejected
          (BError.timeout ("Request (ID " ++ toString (5 : Nat) ++ ")")
            routerStateEx.timeout) ∧
    mapGet? (requestTimeoutFire routerStateEx 5).1.pending 5 = none :=
  ⟨(request_timeout_spec routerStateEx 5 ⟨some 0⟩ (by decide) (by decide)).1,
   (request_timeout_spec routerStateEx 5 ⟨some 0⟩ (by decide) (by decide)).2.1⟩

theorem processMessage_pending_matched (st : RouterState) (msg : ServerMessage)
    (p : PendingEntry) (hid : extractId msg ≠ 0)
    (hpend : mapGet? st.pending (extractId msg) = some p) :
    (processMessage st msg).1.pending = mapDelete st.pending (extractId msg) := by
  simp only [processMessage]
  rw [if_neg hid]
  simp only [hpend]
  split
  · rfl
  · split
    · rfl
    · split <;> rfl

theorem timerActions_no_settle (tid : Option Nat) :
    ∀ (a : RouterAction),
      a ∈ (match tid with
            | some t => [RouterAction.clearTimer t]
            | none => ([] : List RouterAction)) → a.isSettle = false := by
  rcases tid with _ | t
  · intro a ha
    exact absurd ha (List.not_mem_nil a)
  · intro a ha
    have he : a = RouterAction.clearTimer t := List.mem_singleton.mp ha
    subst he
    rfl

/-- C9: an inbound message whose nonzero correlation id matches a pending
request settles the request fully in order: the timer is cleared and the
table entry removed strictly before the single resolving or rejecting
action runs, and the resulting table no longer holds the id, so a resolver
that synchronously sends new requests cannot observe the old entry. -/
theorem processMessage_settle_order_spec (st : RouterState) (msg : ServerMessage)
    (p : PendingEntry) (hid : extractId msg ≠ 0)
    (hpend : mapGet? st.pending (extractId msg) = some p)
    (hnd : (mapKeys st.pending).Nodup) :
    (∃ pre settle, (processMessage st msg).2 = pre ++ [settle] ∧
        RouterAction.deleteEntry (extractId msg) ∈ pre ∧
        (∀ a ∈ pre, a.isSettle = false) ∧
        settle.isSettle = true ∧
        (∀ t, p.timerId = some t → RouterAction.clearTimer t ∈ pre)) ∧
    mapGet? (processMessage st msg).1.pending (extractId msg) = none := by
  constructor
  case right =>
    rw [processMessage_pending_matched st msg p hid hpend]
    exact mapGet?_delete_self _ hnd
  case left =>
    have hnosettle : ∀ a ∈ (match p.timerId with
          | some t => [RouterAction.clearTimer t]
          | none => ([] : List RouterAction))
          ++ [RouterAction.deleteEntry (extractId msg)], a.isSettle = false := by
      intro a ha
      rcases List.mem_append.mp ha with ha | ha
      · exact timerActions_no_settle p.timerId a ha
      · simp only [List.mem_singleton] at ha
        subst ha
        rfl
    have hdelmem : RouterAction.deleteEntry (extractId msg)
        ∈ (match p.timerId with
            | some t => [RouterAction.clearTimer t]
            | none => ([] : List RouterAction))
          ++ [RouterAction.deleteEntry (extractId msg)] :=
      List.mem_append_right _ (List.mem_singleton_self _)
    have hclear : ∀ t, p.timerId = some t →
        RouterAction.clearTimer t
          ∈ (match p.timerId with
              | some t => [RouterAction.clearTimer t]
              | none => ([] : List RouterAction))
            ++ [RouterAction.deleteEntry (extractId msg)] := by
      intro t ht
      apply List.mem_append_left
      rw [ht]
      exact List.mem_singleton_self _
    rcases msg with ⟨i, sn, ma, mi, mp⟩ | ⟨i⟩ | ⟨i, c, em⟩ | ⟨i, ds⟩ | ⟨i⟩ | ⟨i, di, fi, it, v⟩
    · have hid2 : i ≠ 0 := hid
      have hpend2 : mapGet? st.pending i = some p := hpend
      exact ⟨_, RouterAction.resolvePending i (ServerMessage.serverInfo i sn ma mi mp),
        by simp [processMessage, extractId, hpend2, hid2, isOk, isServerInfo, isInputReading],
        hdelmem, hnosettle, rfl, hclear⟩
    · have hid2 : i ≠ 0 := hid
      have hpend2 : mapGet? st.pending i = some p := hpend
      exact ⟨_, RouterAction.resolvePending i (ServerMessage.ok i),
        by simp [processMessage, extractId, hpend2, hid2, isOk, isServerInfo, isInputReading],
        hdelmem, hnosettle, rfl, hclear⟩
    · have hid2 : i ≠ 0 := hid
      have hpend2 : mapGet? st.pending i = some p := hpend
      exact ⟨_, RouterAction.rejectPending i (BError.protocol c em),
        by simp [processMessage, extractId, hpend2, hid2, isOk, isServerInfo, isInputReading],
        hdelmem, hnosettle, rfl, hclear⟩
    · have hid2 : i ≠ 0 := hid
      have hpend2 : mapGet? st.pending i = some p := hpend
      exact ⟨_, RouterAction.resolvePending i (ServerMessage.deviceList i ds),
        by simp [processMessage, extractId, hpend2, hid2, isOk, isServerInfo,
          isInputReading, isDeviceList],
        hdelmem, hnosettle, rfl, hclear⟩
    · have hid2 : i ≠ 0 := hid
      have hpend2 : mapGet? st.pending i = some p := hpend
      refine ⟨((match p.timerId with
          | some t => [RouterAction.clearTimer t]
          | none => ([] : List RouterAction))
          ++ [RouterAction.deleteEntry (extractId (ServerMessage.scanningFinished i))])
          ++ [RouterAction.warnUnexpected (extractId (ServerMessage.scanningFinished i))],
        RouterAction.resolvePending i (ServerMessage.scanningFinished i),
        by simp [processMessage, extractId, hpend2, hid2, isOk, isServerInfo,
          isInputReading, isDeviceList], ?_, ?_, rfl, ?_⟩
      · exact List.mem_append_left _ hdelmem
      · intro a ha
        rcases List.mem_append.mp ha with ha | ha
        · exact hnosettle a ha
        · simp only [List.mem_singleton] at ha
          subst ha
          rfl
      · intro t ht
        exact List.mem_append_left _ (hclear t ht)
    · have hid2 : i ≠ 0 := hid
      have hpend2 : mapGet? st.pending i = some p := hpend
      exact ⟨_, RouterAction.resolvePending i (ServerMessage.inputReading i di fi it v),
        by simp [processMessage, extractId, hpend2, hid2, isOk, isServerInfo, isInputReading],
        hdelmem, hnosettle, rfl, hclear⟩

/-- Witness for processMessage_settle_order_spec: an Ok response with id 5
against the example state. -/
theorem processMessage_settle_order_spec_witness :
    (∃ pre settle,
        (processMessage routerStateEx (ServerMessage.ok 5)).2 = pre ++ [settle] ∧
        RouterAction.deleteEntry (extractId (ServerMessage.ok 5)) ∈ pre ∧
        (∀ a ∈ pre, a.isSettle = false) ∧
        settle.isSettle = true ∧
        (∀ t, (⟨some 0⟩ : PendingEntry).timerId = some t →
          RouterAction.clearTimer t ∈ pre)) ∧
    mapGet? (processMessage routerStateEx (ServerMessage.ok 5)).1.pending
      (extractId (ServerMessage.ok 5)) = none :=
  processMessage_settle_order_spec routerStateEx (ServerMessage.ok 5) ⟨some 0⟩
    (by decide) (by decide) (by decide)

/-- C10: an inbound message with a nonzero correlation id matching a
pending request that is none of the recognized response types (Ok,
ServerInfo, InputReading, DeviceList or Error) is still settled: the
router clears the timer, removes the entry, logs a warning and resolves
the request with the raw message; and more generally no pending request is
left outstanding once any message bearing its id has been processed. -/
theorem processMessage_fallback_resolve_spec (st : RouterState) (msg : ServerMessage)
    (p : PendingEntry) (hid : extractId msg ≠ 0)
    (hpend : mapGet? st.pending (extractId msg) = some p)
    (hnd : (mapKeys st.pending).Nodup)
    (hnok : isOk msg = false) (hnsi : isServerInfo msg = false)
    (hnir : isInputReading msg = false) (hndl : isDeviceList msg = false)
    (hnerr : isError msg = false) :
    (processMessage st msg).2
      = (match p.timerId with
          | some t => [RouterAction.clearTimer t]
          | none => ([] : List RouterAction))
        ++ [RouterAction.deleteEntry (extractId msg),
            RouterAction.warnUnexpected (extractId msg),
            RouterAction.resolvePending (extractId msg) msg] ∧
    mapGet? (processMessage st msg).1.pending (extractId msg) = none ∧
    (∀ (msg2 : ServerMessage) (p2 : PendingEntry), extractId msg2 ≠ 0 →
      mapGet? st.pending (extractId msg2) = some p2 →
      mapGet? (processMessage st msg2).1.pending (extractId msg2) = none) := by
  refine ⟨?_, ?_, ?_⟩
  · rcases msg with ⟨i, sn, ma, mi, mp⟩ | ⟨i⟩ | ⟨i, c, em⟩ | ⟨i, ds⟩ | ⟨i⟩ | ⟨i, di, fi, it, v⟩
    · simp [isServerInfo] at hnsi
    · simp [isOk] at hnok
    · simp [isError] at hnerr
    · simp [isDeviceList] at hndl
    · have hid2 : i ≠ 0 := hid
      have hpend2 : mapGet? st.pending i = some p := hpend
      simp [processMessage, extractId, hpend2, hid2, isOk, isServerInfo,
        isInputReading, isDeviceList]
    · simp [isInputReading] at hnir
  · rw [processMessage_pending_matched st msg p hid hpend]
    exact mapGet?_delete_self _ hnd
  · intro msg2 p2 hid2 hpend2
    rw [processMessage_pending_matched st msg2 p2 hid2 hpend2]
    exact mapGet?_delete_self _ hnd

/-- Witness for processMessage_fallback_resolve_spec: a ScanningFinished
message bearing the pending id 5 against the example state. -/
theorem processMessage_fallback_resolve_spec_witness :
    (processMessage routerStateEx (ServerMessage.scanningFinished 5)).2
      = [RouterAction.clearTimer 0,
         RouterAction.deleteEntry 5, RouterAction.warnUnexpected 5,
         RouterAction.resolvePending 5 (ServerMessage.scanningFinished 5)] ∧
    mapGet? (processMessage routerStateEx (ServerMessage.scanningFinished 5)).1.pending 5
      = none :=
  ⟨(processMessage_fallback_resolve_spec routerStateEx
      (ServerMessage.scanningFinished 5) ⟨some 0⟩ (by decide) (by decide) (by decide)
      (by decide) (by decide) (by decide) (by decide) (by decide)).1,
   (processMessage_fallback_resolve_spec routerStateEx
      (ServerMessage.scanningFinished 5) ⟨some 0⟩ (by decide) (by decide) (by decide)
      (by decide) (by decide) (by decide) (by decide) (by decide)).2.1⟩

/-- C6 counterexample: with a pending ping under id 1 and another pending
request under id 2, the firing of the ping timeout rejects the other
request too and removes it from the table, because the client wires the
cancel-ping hook to cancelAll; so an in-flight request other than the
ping is affected by a ping slow enough to time out. -/
theorem ping_timeout_cancelAll_counterexample :
    mapGet? (pingTimeoutFire routerStatePing 5000).1.pending 2 = none ∧
    (pingTimeoutFire routerStatePing 5000).2
      = [(1, Settlement.rejected (BError.timeout "Ping" 5000)),
         (2, Settlement.rejected (BError.timeout "Ping" 5000))] := by
  constructor
  · rfl
  · rfl

/-- C6 (amended): a ping timeout cancels every outstanding router request,
the ping included, rejecting each with the ping timeout fault and emptying
the pending table; the ping failure handler reports every failure through
the error callback and triggers the caller-supplied disconnect exactly
when the failure is a timeout and the transport is still connected, so a
non-timeout ping failure never disconnects; and a ping that is merely in
flight leaves every other pending entry untouched. -/
theorem ping_timeout_spec (st : RouterState) (mpt : Nat) (e : BError)
    (connected : Bool) (pingId : Nat) (j : Nat) (hj : j ≠ pingId) :
    (pingTimeoutFire st mpt).1.pending = [] ∧
    (pingTimeoutFire st mpt).2
      = st.pending.map (fun q => (q.1,
          Settlement.rejected (BError.timeout "Ping" (pingEffectiveTimeout mpt)))) ∧
    (doPingEffects (PingOutcome.failed e) connected).errorReported = some e ∧
    (doPingEffects (PingOutcome.failed e) connected).disconnectCalled
      = (e.isTimeout && connected) ∧
    (e.isTimeout = false →
      (doPingEffects (PingOutcome.failed e) connected).disconnectCalled = false) ∧
    mapGet? (register1 st pingId).pending j = mapGet? st.pending j := by
  refine ⟨rfl, rfl, rfl, rfl, ?_, ?_⟩
  · intro he
    simp [doPingEffects, he]
  · exact mapGet?_set_ne _ _ hj

/-- Witness for ping_timeout_spec at the example two-entry state, a
non-timeout connection error, and the fresh ping id 3 with the other
pending id 2. -/
theorem ping_timeout_spec_witness :
    (2 : Nat) ≠ 3 ∧
    ((pingTimeoutFire routerStatePing 5000).1.pending = [] ∧
     (pingTimeoutFire routerStatePing 5000).2
       = routerStatePing.pending.map (fun q => (q.1,
           Settlement.rejected (BError.timeout "Ping" (pingEffectiveTimeout 5000)))) ∧
     (doPingEffects (PingOutcome.failed (BError.connection "reset")) true).errorReported
       = some (BError.connection "reset") ∧
     (doPingEffects (PingOutcome.failed (BError.connection "reset")) true).disconnectCalled
       = ((BError.connection "reset").isTimeout && true) ∧
     ((BError.connection "reset").isTimeout = false →
       (doPingEffects (PingOutcome.failed (BError.connection "reset")) true).disconnectCalled
         = false) ∧
     mapGet? (register1 routerStatePing 3).pending 2
       = mapGet? routerStatePing.pending 2) :=
  ⟨by decide,
   ping_timeout_spec routerStatePing 5000 (BError.connection "reset") true 3 2 (by decide)⟩

section ReconnectLemmas

theorem failTrace_invariant (cfg : ReconnectConfig) :
    ∀ k, k < cfg.maxReconnectAttempts →
      (failTrace cfg k).1
        = ⟨k + 1, some (backoffDelay cfg (k + 1)), true, false⟩ ∧
      (failTrace cfg k).2.countP ReconnectEvent.isFailedCb = 0 ∧
      (failTrace cfg k).2.countP ReconnectEvent.isConnectAttempt = k := by
  intro k
  induction k with
  | zero =>
      intro h
      have hng : ¬ ((0 : Nat) + 1 > cfg.maxReconnectAttempts) := by omega
      refine ⟨?_, ?_, ?_⟩ <;>
        simp [failTrace, reconnectStart, reconnectIdle, attemptReconnect, hng,
          List.countP_cons, List.countP_nil, ReconnectEvent.isFailedCb,
          ReconnectEvent.isConnectAttempt]
  | succ n ih =>
      intro h
      have hn : n < cfg.maxReconnectAttempts := Nat.lt_of_succ_lt h
      obtain ⟨hst, hf, hc⟩ := ih hn
      have hng : ¬ (n + 1 + 1 > cfg.maxReconnectAttempts) := by omega
      have hfire : reconnectTimerFire cfg (failTrace cfg n).1 false
          = (⟨n + 1 + 1, some (backoffDelay cfg (n + 1 + 1)), true, false⟩,
             [ReconnectEvent.connectAttempt, ReconnectEvent.reconnectingCb (n + 1 + 1)]) := by
        rw [hst]
        simp [reconnectTimerFire, attemptReconnect, hng]
      refine ⟨?_, ?_, ?_⟩
      · show (reconnectTimerFire cfg (failTrace cfg n).1 false).1 = _
        rw [hfire]
      · show ((failTrace cfg n).2
            ++ (reconnectTimerFire cfg (failTrace cfg n).1 false).2).countP _ = 0
        rw [hfire]
        simp [List.countP_append, hf, List.countP_cons, List.countP_nil, ReconnectEvent.isFailedCb]
      · show ((failTrace cfg n).2
            ++ (reconnectTimerFire cfg (failTrace cfg n).1 false).2).countP _ = n + 1
        rw [hfire]
        simp [List.countP_append, hc, List.countP_cons, List.countP_nil, ReconnectEvent.isConnectAttempt]

theorem failTrace_exhausted (cfg : ReconnectConfig)
    (hmax : 1 ≤ cfg.maxReconnectAttempts) :
    (failTrace cfg cfg.maxReconnectAttempts).1
      = ⟨cfg.maxReconnectAttempts + 1, none, false, false⟩ ∧
    (failTrace cfg cfg.maxReconnectAttempts).2.countP ReconnectEvent.isFailedCb = 1 ∧
    (failTrace cfg cfg.maxReconnectAttempts).2.countP ReconnectEvent.isConnectAttempt
      = cfg.maxReconnectAttempts := by
  obtain ⟨M, hM⟩ : ∃ m, cfg.maxReconnectAttempts = m + 1 :=
    ⟨cfg.maxReconnectAttempts - 1, by omega⟩
  have hMlt : M < cfg.maxReconnectAttempts := by omega
  obtain ⟨hst, hf, hc⟩ := failTrace_invariant cfg M hMlt
  have hng : M + 1 + 1 > cfg.maxReconnectAttempts := by omega
  have hfire : reconnectTimerFire cfg (failTrace cfg M).1 false
      = (⟨M + 1 + 1, none, false, false⟩,
         [ReconnectEvent.connectAttempt,
          ReconnectEvent.failedCb ("Failed to reconnect after "
            ++ toString cfg.maxReconnectAttempts ++ " attempts")]) := by
    rw [hst]
    simp [reconnectTimerFire, attemptReconnect, hng]
  refine ⟨?_, ?_, ?_⟩
  · show (failTrace cfg cfg.maxReconnectAttempts).1 = _
    rw [hM]
    show (reconnectTimerFire cfg (failTrace cfg M).1 false).1 = _
    rw [hfire]
  · rw [hM]
    show ((failTrace cfg M).2
        ++ (reconnectTimerFire cfg (failTrace cfg M).1 false).2).countP _ = 1
    rw [hfire]
    simp [List.countP_append, hf, List.countP_cons, List.countP_nil, ReconnectEvent.isFailedCb]
  · rw [hM]
    show ((failTrace cfg M).2
        ++ (reconnectTimerFire cfg (failTrace cfg M).1 false).2).countP _ = M + 1
    rw [hfire]
    simp [List.countP_append, hc, List.countP_cons, List.countP_nil, ReconnectEvent.isConnectAttempt]

end ReconnectLemmas

/-- C3: before attempt n (for n between 1 and the attempt bound) the
reconnect handler arms the backoff delay min(base * 2^(n-1), cap) with the
exponent capped at 30 to avoid numeric overflow; after maxAttempts
consecutive connect failures the run holds exactly maxAttempts transport
connect calls and exactly one terminal failure report, the handler has
left the reconnecting state, and a further timer firing performs no
connect attempt and reports nothing (until start is called again). -/
theorem reconnect_backoff_spec (cfg : ReconnectConfig) (n : Nat)
    (hmax : 1 ≤ cfg.maxReconnectAttempts) (hn1 : 1 ≤ n)
    (hn2 : n ≤ cfg.maxReconnectAttempts) :
    (failTrace cfg (n - 1)).1.reconnectTimer
      = some (min (cfg.reconnectDelay * 2 ^ (min (n - 1) MAX_BACKOFF_EXPONENT))
          cfg.maxReconnectDelay) ∧
    (n - 1 ≤ MAX_BACKOFF_EXPONENT →
      (failTrace cfg (n - 1)).1.reconnectTimer
        = some (min (cfg.reconnectDelay * 2 ^ (n - 1)) cfg.maxReconnectDelay)) ∧
    (failTrace cfg cfg.maxReconnectAttempts).2.countP ReconnectEvent.isFailedCb = 1 ∧
    (failTrace cfg cfg.maxReconnectAttempts).2.countP ReconnectEvent.isConnectAttempt
      = cfg.maxReconnectAttempts ∧
    (failTrace cfg cfg.maxReconnectAttempts).1.reconnecting = false ∧
    (∀ b, reconnectTimerFire cfg (failTrace cfg cfg.maxReconnectAttempts).1 b
      = ((failTrace cfg cfg.maxReconnectAttempts).1, [])) := by
  have hlt : n - 1 < cfg.maxReconnectAttempts := by omega
  obtain ⟨hst, _, _⟩ := failTrace_invariant cfg (n - 1) hlt
  have hsucc : n - 1 + 1 = n := by omega
  obtain ⟨hfin, hf1, hcM⟩ := failTrace_exhausted cfg hmax
  refine ⟨?_, ?_, hf1, hcM, ?_, ?_⟩
  · rw [hst]
    simp [backoffDelay, hsucc]
  · intro hcap
    rw [hst]
    simp [backoffDelay, hsucc, Nat.min_eq_left hcap]
  · rw [hfin]
  · intro b
    rw [hfin]
    simp [reconnectTimerFire]

/-- Witness for reconnect_backoff_spec at the default configuration and
attempt number 2: the armed delay before attempt 2 is 2000ms, the run of
10 failures reports one terminal failure after 10 connect attempts, and a
further firing does nothing. -/
theorem reconnect_backoff_spec_witness :
    (failTrace reconnectDefaults (2 - 1)).1.reconnectTimer
      = some (min (reconnectDefaults.reconnectDelay * 2 ^ (min (2 - 1) MAX_BACKOFF_EXPONENT))
          reconnectDefaults.maxReconnectDelay) ∧
    ((2 : Nat) - 1 ≤ MAX_BACKOFF_EXPONENT →
      (failTrace reconnectDefaults (2 - 1)).1.reconnectTimer
        = some (min (reconnectDefaults.reconnectDelay * 2 ^ (2 - 1))
            reconnectDefaults.maxReconnectDelay)) ∧
    (failTrace reconnectDefaults
        reconnectDefaults.maxReconnectAttempts).2.countP ReconnectEvent.isFailedCb = 1 ∧
    (failTrace reconnectDefaults
        reconnectDefaults.maxReconnectAttempts).2.countP ReconnectEvent.isConnectAttempt
      = reconnectDefaults.maxReconnectAttempts ∧
    (failTrace reconnectDefaults
        reconnectDefaults.maxReconnectAttempts).1.reconnecting = false ∧
    (∀ b, reconnectTimerFire reconnectDefaults
        (failTrace reconnectDefaults reconnectDefaults.maxReconnectAttempts).1 b
      = ((failTrace reconnectDefaults reconnectDefaults.maxReconnectAttempts).1, [])) :=
  reconnect_backoff_spec reconnectDefaults 2 (by decide) (by decide) (by decide)

/-- C5: when disconnect is called while a connect attempt is in flight,
the in-flight attempt is flagged and the socket close is requested; once
the socket opens the attempt is torn down cleanly: the transport ends in
the disconnected state with its ws reference dropped while the socket is
already in its closing handshake, and the following close event leaves
the socket fully closed with the transport still disconnected (the same
holds when the close arrives without an open). -/
theorem disconnect_during_connect_spec (t : TransportModel)
    (hs : t.state = TState.connecting) (hc : t.connectInFlight = true)
    (hw : t.wsRef = true) (hl : t.connectListeners = true)
    (hsock : t.socket = some ⟨WsReadyState.connecting, false⟩) :
    (disconnectCall t).disconnectRequested = true ∧
    (disconnectCall t).socket = some ⟨WsReadyState.connecting, true⟩ ∧
    (openEvent (disconnectCall t)).state = TState.disconnected ∧
    (openEvent (disconnectCall t)).wsRef = false ∧
    (openEvent (disconnectCall t)).socket = some ⟨WsReadyState.closing, true⟩ ∧
    (closeEvent (openEvent (disconnectCall t))).state = TState.disconnected ∧
    (closeEvent (openEvent (disconnectCall t))).socket
      = some ⟨WsReadyState.closed, true⟩ ∧
    (closeEvent (disconnectCall t)).state = TState.disconnected ∧
    (closeEvent (disconnectCall t)).socket = some ⟨WsReadyState.closed, true⟩ := by
  obtain ⟨sock, wsr, stt, cif, dreq, cl, mh⟩ := t
  simp only at hs hc hw hl hsock
  subst hs
  subst hc
  subst hw
  subst hl
  subst hsock
  refine ⟨?_, ?_, ?_, ?_, ?_, ?_, ?_, ?_, ?_⟩ <;>
    simp [disconnectCall, openEvent, closeEvent, cleanupT]

/-- Witness for disconnect_during_connect_spec at the state reached by
calling connect on a fresh transport. -/
theorem disconnect_during_connect_spec_witness :
    (disconnectCall (connectCall freshTransport)).disconnectRequested = true ∧
    (disconnectCall (connectCall freshTransport)).socket
      = some ⟨WsReadyState.connecting, true⟩ ∧
    (openEvent (disconnectCall (connectCall freshTransport))).state
      = TState.disconnected ∧
    (openEvent (disconnectCall (connectCall freshTransport))).wsRef = false ∧
    (openEvent (disconnectCall (connectCall freshTransport))).socket
      = some ⟨WsReadyState.closing, true⟩ ∧
    (closeEvent (openEvent (disconnectCall (connectCall freshTransport)))).state
      = TState.disconnected ∧
    (closeEvent (openEvent (disconnectCall (connectCall freshTransport)))).socket
      = some ⟨WsReadyState.closed, true⟩ ∧
    (closeEvent (disconnectCall (connectCall freshTransport))).state
      = TState.disconnected ∧
    (closeEvent (disconnectCall (connectCall freshTransport))).socket
      = some ⟨WsReadyState.closed, true⟩ :=
  disconnect_during_connect_spec (connectCall freshTransport)
    (by decide) (by decide) (by decide) (by decide) (by decide)

end Buttplug
